import Mathlib

/-!
# Product catalogue server (`12-flip/server/server.js`)

A shallow embedding of the request handlers of `server.js` and of the helper
functions they call (`filterByCategory`, `applyDiscount`, `isValidPagination`,
`paginate`), followed by theorems about them.

Conventions of the embedding

* `parseInt` and the arithmetic of `paginate` work on `JSInt`, the
  integer-valued IEEE-754 doubles together with `NaN` and `±Infinity`.  Every
  arithmetic result is rounded to the nearest double (ties to even) by
  `roundToDouble`, so loss of precision above `2^53` and overflow to `Infinity`
  are part of the model.  `-0` is identified with `0`: no operation used here
  tells them apart.
* A JS `Map` is an association list in insertion order (`Store`), a JSON object
  is an association list of its own properties (`JObj`).
* `String.prototype.toUpperCase` is supplied by the host (`Host`).
* The price computation of `applyDiscount` works on doubles as exact rationals: every
  result is rounded to the nearest double (ties to even) by `toDouble`.  The conversion
  of a price to a number does not throw in the model: an object converts to `NaN`, the
  reading of `[object Object]`; an object with a property of its own named `toString`,
  on which JavaScript throws a `TypeError`, is not told apart.
* `_id()` is a function of the random integer it draws; a sequence of writing requests
  is served by `serve`, starting from `initialProducts`.
* The two read handlers are given a second time on products held by reference
  (`getProductRef`, `getProductsRef`), where it can be said that a read writes to no
  stored object; they are shown to send what the handlers on values compute.
-/

namespace Flip

/-! ## Integer-valued JavaScript numbers -/

/-- An integer-valued JavaScript number, `NaN`, or `±Infinity`: the values
`parseInt` can return and integer arithmetic on them can produce. -/
inductive JSInt where
  | nan
  | negInf
  | posInf
  | fin (z : Int)
  deriving DecidableEq, Repr

/-- Every integer of magnitude up to `2^53` is a double. -/
def exactBound : Nat := 2 ^ 53

/-- Doubles are smaller than `2^1024`. -/
@[irreducible] def overflowBound : Nat := 2 ^ 1024

/-- Round a natural number to the nearest IEEE-754 double, ties to even;
`none` stands for overflow to `Infinity`.  Below `2^53` every integer is a
double; above, the 53 leading bits are kept and the rest is rounded. -/
def roundToDouble (n : Nat) : Option Nat :=
  if n < exactBound then some n
  else
    let e := Nat.log2 n - 52
    let q := n / 2 ^ e
    let r := n % 2 ^ e
    let q1 := if 2 ^ e < 2 * r ∨ (2 * r = 2 ^ e ∧ q % 2 = 1) then q + 1 else q
    if q1 * 2 ^ e < overflowBound then some (q1 * 2 ^ e) else none

/-- The double nearest to `±n`. -/
def JSInt.ofSignMag (neg : Bool) (n : Nat) : JSInt :=
  match roundToDouble n with
  | none => if neg then .negInf else .posInf
  | some v => .fin (if neg then -(v : Int) else (v : Int))

/-- The double nearest to the integer `z`. -/
def JSInt.ofInt (z : Int) : JSInt :=
  JSInt.ofSignMag (decide (z < 0)) z.natAbs

/-- Unary minus. -/
def JSInt.neg : JSInt → JSInt
  | .nan => .nan
  | .negInf => .posInf
  | .posInf => .negInf
  | .fin z => .fin (-z)

/-- The `+` operator of IEEE-754 doubles on integer values. -/
def JSInt.add : JSInt → JSInt → JSInt
  | .nan, _ => .nan
  | _, .nan => .nan
  | .posInf, .negInf => .nan
  | .negInf, .posInf => .nan
  | .posInf, _ => .posInf
  | _, .posInf => .posInf
  | .negInf, _ => .negInf
  | _, .negInf => .negInf
  | .fin a, .fin b => JSInt.ofInt (a + b)

/-- The `-` operator of IEEE-754 doubles on integer values. -/
def JSInt.sub (a b : JSInt) : JSInt := a.add b.neg

/-- Product of an infinity (negative when `neg`) with a finite integer. -/
def JSInt.infMul (neg : Bool) (z : Int) : JSInt :=
  if z = 0 then .nan
  else if (z < 0) = (neg = true) then .posInf else .negInf

/-- The `*` operator of IEEE-754 doubles on integer values. -/
def JSInt.mul : JSInt → JSInt → JSInt
  | .nan, _ => .nan
  | _, .nan => .nan
  | .posInf, .posInf => .posInf
  | .negInf, .negInf => .posInf
  | .posInf, .negInf => .negInf
  | .negInf, .posInf => .negInf
  | .posInf, .fin z => JSInt.infMul false z
  | .fin z, .posInf => JSInt.infMul false z
  | .negInf, .fin z => JSInt.infMul true z
  | .fin z, .negInf => JSInt.infMul true z
  | .fin a, .fin b => JSInt.ofInt (a * b)

/-- The `>` operator: false as soon as one side is `NaN`. -/
def JSInt.gt : JSInt → JSInt → Bool
  | .nan, _ => false
  | _, .nan => false
  | .posInf, .posInf => false
  | .posInf, _ => true
  | _, .posInf => false
  | .negInf, _ => false
  | _, .negInf => true
  | .fin a, .fin b => decide (b < a)

/-- The global `isNaN` on a number. -/
def JSInt.isNaN : JSInt → Bool
  | .nan => true
  | _ => false

/-! ## `parseInt(string, 10)` -/

/-- The characters `parseInt` skips at the start of its input: ECMAScript
`WhiteSpace` and `LineTerminator`. -/
def isStrWhiteSpaceChar (c : Char) : Bool :=
  decide (c.toNat ∈ [0x09, 0x0A, 0x0B, 0x0C, 0x0D, 0x20, 0xA0, 0x1680, 0x2028, 0x2029,
    0x202F, 0x205F, 0x3000, 0xFEFF]) || (decide (0x2000 ≤ c.toNat) && decide (c.toNat ≤ 0x200A))

/-- Value of a string of decimal digits. -/
def digitsValue (ds : List Char) : Nat :=
  ds.foldl (fun acc c => 10 * acc + (c.toNat - 48)) 0

/-- Split an optional sign off the front of the trimmed input. -/
def splitSign : List Char → Bool × List Char
  | '-' :: t => (true, t)
  | '+' :: t => (false, t)
  | s => (false, s)

/-- The result of `parseInt(input, 10)` for a string `input`: skip leading white space,
read an optional sign, read the longest prefix of decimal digits; no digit gives
`NaN`, otherwise the signed value as a double. -/
def parseInt (input : String) : JSInt :=
  let s := input.toList.dropWhile isStrWhiteSpaceChar
  let sz := splitSign s
  let z := sz.2.takeWhile Char.isDigit
  if z.isEmpty then .nan else JSInt.ofSignMag sz.1 (digitsValue z)

/-! ## Request data -/

/-- A value found in `req.query`: a string, or an array of strings when the key is
repeated.  (A nested object of the extended query parser converts to a string the
same way an array holding that string does, so arrays cover it.) -/
inductive QVal where
  | str (s : String)
  | arr (xs : List String)
  deriving DecidableEq, Repr

/-- The abstract operation `ToString`, which `parseInt` applies to its argument:
a string is itself, an array is its elements joined by commas. -/
def QVal.toJSString : QVal → String
  | .str s => s
  | .arr xs => ",".intercalate xs

/-- The four keys of `req.query` that the handlers read; `none` is `undefined`. -/
structure Query where
  category : Option QVal
  discount : Option QVal
  limit : Option QVal
  page : Option QVal
  deriving DecidableEq, Repr

/-- The JavaScript number type as found in JSON payloads and stored prices: a finite
value (doubles are rationals; `toDouble` below gives the double that a decimal literal
denotes), `-0`, `±Infinity` (a literal such as `1e999`), `NaN`. -/
inductive JSNumber where
  | nan
  | posInf
  | negInf
  | negZero
  | fin (q : ℚ)
  deriving DecidableEq

/-- A JSON value, as produced by the body parser. -/
inductive JVal where
  | null
  | bool (b : Bool)
  | num (x : JSNumber)
  | str (s : String)
  | arr (items : List JVal)
  | obj (props : List (String × JVal))

/-- `ToBoolean` on a number: `0`, `-0` and `NaN` are falsy. -/
def JSNumber.truthy : JSNumber → Bool
  | .nan => false
  | .negZero => false
  | .fin q => decide (q ≠ 0)
  | _ => true

/-- `ToBoolean` on a JSON value. -/
def JVal.truthy : JVal → Bool
  | .null => false
  | .bool b => b
  | .num x => x.truthy
  | .str s => decide (s ≠ "")
  | .arr _ => true
  | .obj _ => true

/-- `ToBoolean` on a value that may be `undefined`. -/
def truthy? : Option JVal → Bool
  | none => false
  | some v => v.truthy

/-- A JavaScript object with JSON values: its own properties in order.  Every
operation below keeps the keys distinct. -/
abbrev JObj := List (String × JVal)

/-- Property read `o[k]`; `none` is `undefined`. -/
def JObj.get (o : JObj) (k : String) : Option JVal :=
  match o with
  | [] => none
  | (k1, v) :: rest => if k1 = k then some v else JObj.get rest k

/-- The array `Object.keys(o)`. -/
def JObj.keys (o : JObj) : List String := o.map Prod.fst

/-- Property write `o[k] = v` on a copy: an existing property keeps its place, a
new one goes last. -/
def JObj.set (o : JObj) (k : String) (v : JVal) : JObj :=
  match o with
  | [] => [(k, v)]
  | (k1, v1) :: rest => if k1 = k then (k1, v) :: rest else (k1, v1) :: JObj.set rest k v

/-- Spread of `src` after the properties of `target`: `{ ...target, ...src }`. -/
def JObj.assign (target src : JObj) : JObj :=
  src.foldl (fun o kv => JObj.set o kv.1 kv.2) target

/-- A product record. -/
abbrev Product := JObj

/-- The `products` map: entries in insertion order, keyed by id. -/
abbrev Store := List (String × Product)

/-- The method `Map.prototype.get`. -/
def Store.get (s : Store) (id : String) : Option Product :=
  match s with
  | [] => none
  | (k, p) :: rest => if k = id then some p else Store.get rest id

/-- The method `Map.prototype.has`. -/
def Store.has (s : Store) (id : String) : Bool := (Store.get s id).isSome

/-- The method `Map.prototype.set`: overwrite in place, or append a new entry. -/
def Store.set (s : Store) (id : String) (p : Product) : Store :=
  match s with
  | [] => [(id, p)]
  | (k, p1) :: rest => if k = id then (k, p) :: rest else (k, p1) :: Store.set rest id p

/-- The method `Map.prototype.delete`. -/
def Store.delete (s : Store) (id : String) : Store := s.filter (fun e => decide (e.1 ≠ id))

/-- The array `[...products.values()]`. -/
def Store.values (s : Store) : List Product := s.map Prod.snd

/-! ## Doubles -/

/-- Nearest integer, ties to the even one. -/
def roundHalfEven (x : ℚ) : ℤ :=
  if x - ⌊x⌋ < 1 / 2 then ⌊x⌋
  else if 1 / 2 < x - ⌊x⌋ then ⌊x⌋ + 1
  else if ⌊x⌋ % 2 = 0 then ⌊x⌋ else ⌊x⌋ + 1

/-- The binary exponent of the unit in the last place of the doubles around a positive
`a`: 52 below the exponent of `a`, and never below -1074 (the subnormal doubles). -/
def ulpExponent (a : ℚ) : ℤ := max (Int.log 2 a - 52) (-1074)

/-- Round a non-negative rational to the nearest double, ties to even: the nearest
multiple of the unit in the last place; `none` stands for overflow. -/
def roundMagnitude (a : ℚ) : Option ℚ :=
  if (roundHalfEven (a / 2 ^ ulpExponent a) : ℚ) * 2 ^ ulpExponent a < (overflowBound : ℚ) then
    some ((roundHalfEven (a / 2 ^ ulpExponent a) : ℚ) * 2 ^ ulpExponent a)
  else none

/-- The double of the given sign whose magnitude is the nearest to `a >= 0`. -/
def JSNumber.ofSignMagnitude (neg : Bool) (a : ℚ) : JSNumber :=
  match roundMagnitude a with
  | none => if neg then .negInf else .posInf
  | some v => if v = 0 then (if neg then .negZero else .fin 0) else .fin (if neg then -v else v)

/-- The double nearest to a rational: what a decimal literal denotes, and what an
arithmetic operation returns for its exact result. -/
def toDouble (q : ℚ) : JSNumber := JSNumber.ofSignMagnitude (decide (q < 0)) |q|

/-- The sign bit of a number. -/
def JSNumber.isNegative : JSNumber → Bool
  | .negInf => true
  | .negZero => true
  | .fin q => decide (q < 0)
  | _ => false

/-- The magnitude of a finite number; `none` for the infinities and `NaN`. -/
def JSNumber.finiteAbs : JSNumber → Option ℚ
  | .fin q => some |q|
  | .negZero => some 0
  | _ => none

/-- An infinity of the given sign. -/
def JSNumber.infinity (neg : Bool) : JSNumber := if neg then .negInf else .posInf

/-- The `*` operator on doubles: the exact product, rounded; the sign is the exclusive
or of the signs, also for a zero; infinity times zero is `NaN`. -/
def JSNumber.mul (x y : JSNumber) : JSNumber :=
  match x, y with
  | .nan, _ => .nan
  | _, .nan => .nan
  | x, y =>
    match x.finiteAbs, y.finiteAbs with
    | some a, some b => JSNumber.ofSignMagnitude (xor x.isNegative y.isNegative) (a * b)
    | some a, none => if a = 0 then .nan else JSNumber.infinity (xor x.isNegative y.isNegative)
    | none, some b => if b = 0 then .nan else JSNumber.infinity (xor x.isNegative y.isNegative)
    | none, none => JSNumber.infinity (xor x.isNegative y.isNegative)

/-- Value of a digit in a radix up to 16. -/
def hexDigit (c : Char) : Option Nat :=
  if c.isDigit then some (c.toNat - 48)
  else if 'a' ≤ c ∧ c ≤ 'f' then some (c.toNat - 87)
  else if 'A' ≤ c ∧ c ≤ 'F' then some (c.toNat - 55)
  else none

/-- Value of a non-empty string of digits of the radix; `none` for anything else. -/
def radixValue (radix : Nat) (cs : List Char) : Option Nat :=
  if cs.isEmpty then none
  else cs.foldl (fun acc c =>
    match acc, hexDigit c with
    | some a, some d => if d < radix then some (radix * a + d) else none
    | _, _ => none) (some 0)

/-- The digits of a fraction part, if the input starts with a point, and what follows. -/
def splitFraction : List Char → List Char × List Char
  | '.' :: t => (t.takeWhile Char.isDigit, t.dropWhile Char.isDigit)
  | s => ([], s)

/-- The power of ten of an exponent part `e`, `e+` or `e-` followed by digits, for what
follows the digits and the fraction of a literal; nothing left gives the power 0. -/
def exponentPart : List Char → Option ℤ
  | [] => some 0
  | c :: t =>
    if c = 'e' ∨ c = 'E' then
      if (splitSign t).2.isEmpty || !(splitSign t).2.all Char.isDigit then none
      else some (if (splitSign t).1 then -(digitsValue (splitSign t).2 : ℤ)
        else (digitsValue (splitSign t).2 : ℤ))
    else none

/-- The value of an unsigned decimal literal (`12`, `12.`, `12.5`, `.5`, each with an
optional exponent part); `none` when the characters are not such a literal. -/
def unsignedDecimal (cs : List Char) : Option ℚ :=
  if (cs.takeWhile Char.isDigit).isEmpty &&
      (splitFraction (cs.dropWhile Char.isDigit)).1.isEmpty then none
  else
    match exponentPart (splitFraction (cs.dropWhile Char.isDigit)).2 with
    | none => none
    | some e =>
      some (((digitsValue (cs.takeWhile Char.isDigit) : ℚ) +
        (digitsValue (splitFraction (cs.dropWhile Char.isDigit)).1 : ℚ) /
          10 ^ (splitFraction (cs.dropWhile Char.isDigit)).1.length) * 10 ^ e)

/-- A signed decimal literal or `Infinity`. -/
def signedDecimal (cs : List Char) : JSNumber :=
  if (splitSign cs).2 = "Infinity".toList then JSNumber.infinity (splitSign cs).1
  else
    match unsignedDecimal (splitSign cs).2 with
    | none => .nan
    | some q => JSNumber.ofSignMagnitude (splitSign cs).1 q

/-- An integer literal in the radix of its prefix `0x`, `0o` or `0b`. -/
def radixLiteral (radix : Nat) (cs : List Char) : JSNumber :=
  match radixValue radix cs with
  | none => .nan
  | some n => toDouble n

/-- The abstract operation `StringToNumber`: white space around the literal is skipped,
the empty string is 0, a string that is not a numeric literal is `NaN`. -/
def stringToNumber (s : String) : JSNumber :=
  match ((s.toList.dropWhile isStrWhiteSpaceChar).reverse.dropWhile
      isStrWhiteSpaceChar).reverse with
  | [] => .fin 0
  | '0' :: c :: rest =>
    if c = 'x' ∨ c = 'X' then radixLiteral 16 rest
    else if c = 'o' ∨ c = 'O' then radixLiteral 8 rest
    else if c = 'b' ∨ c = 'B' then radixLiteral 2 rest
    else signedDecimal ('0' :: c :: rest)
  | cs => signedDecimal cs

/-- The number that an array converts to, through the string of its elements joined by
commas: the empty array is the empty string, hence 0; an array of one element is the
string of that element (the empty string for `null`, and a number prints as a literal
that reads back as the same number, `-0` as `0`); two or more elements give a string
with a comma, hence `NaN`. -/
def arrayToNumber : List JVal → JSNumber
  | [] => .fin 0
  | [.null] => .fin 0
  | [.bool _] => .nan
  | [.num .negZero] => .fin 0
  | [.num x] => x
  | [.str s] => stringToNumber s
  | [.arr items] => arrayToNumber items
  | [.obj _] => .nan
  | _ :: _ :: _ => .nan

/-- The abstract operation `ToNumber` on a value that may be `undefined`. -/
def toNumber : Option JVal → JSNumber
  | none => .nan
  | some .null => .fin 0
  | some (.bool b) => .fin (if b then 1 else 0)
  | some (.num x) => x
  | some (.str s) => stringToNumber s
  | some (.arr items) => arrayToNumber items
  | some (.obj _) => .nan

/-- The expression `parseFloat(x.toFixed(2))`.  Below `10^21` in magnitude, `toFixed(2)`
prints the hundredth nearest to `x`, the one further from zero on a tie, with the sign
of `x`, and `parseFloat` reads it as the nearest double; from `10^21` on, and for the
infinities and `NaN`, `toFixed` prints the number itself, which reads back unchanged. -/
def parseFloatToFixed2 : JSNumber → JSNumber
  | .nan => .nan
  | .posInf => .posInf
  | .negInf => .negInf
  | .negZero => .fin 0
  | .fin q =>
    if (10 : ℚ) ^ 21 ≤ |q| then .fin q
    else JSNumber.ofSignMagnitude (decide (q < 0)) ((⌊|q| * 100 + 1 / 2⌋ : ℤ) / 100)

/-- The expression `parseFloat((product.price * discountedRatio).toFixed(2))` of
`applyDiscount`, as a function of the ratio and of the product's `price` property. -/
def discountedPrice (discountedRatio : JSNumber) (price : Option JVal) : JVal :=
  .num (parseFloatToFixed2 ((toNumber price).mul discountedRatio))

/-- What the handlers take from the JavaScript host: `String.prototype.toUpperCase`. -/
structure Host where
  toUpperCase : String → String

/-- An uncaught `TypeError` (calling `toUpperCase` on a value that is not a string). -/
inductive JSError where
  | typeError
  deriving DecidableEq, Repr

/-- What a handler sends: `res.sendStatus(code)` or `res.status(code).json(body)`. -/
inductive Response (β : Type) where
  | sendStatus (code : Nat)
  | json (code : Nat) (body : β)

/-- The envelope returned by `paginate`. -/
structure Paged (α : Type) where
  page : JSInt
  limit : JSInt
  next : Option JSInt
  results : List α

/-! ## Discounts, filtering, pagination -/

/-- The double that the literal `0.8` denotes, `3602879701896397 / 2^52`. -/
def pointEight : JSNumber := .fin (3602879701896397 / 4503599627370496)

/-- The object `discountCodes`. -/
def discountCodes : List (String × JSNumber) := [("DUPA", pointEight)]

/-- The arrow function `applyDiscount`: the product transform chosen by
`req.query["discount"]`.  `?.toUpperCase()` is `undefined` on a missing key, throws on
a value that is not a string; a truthy ratio rewrites `price`, anything else is the
identity.  (The properties that `discountCodes` inherits all have lower-case letters
in their names, so an upper-cased key finds own properties only.) -/
def applyDiscount (h : Host) (query : Query) : Except JSError (Product → Product) :=
  match query.discount with
  | none => .ok (fun product => product)
  | some (.arr _) => .error .typeError
  | some (.str code) =>
    match discountCodes.lookup (h.toUpperCase code) with
    | some discountedRatio =>
      if discountedRatio.truthy then
        .ok (fun product =>
          JObj.set product "price" (discountedPrice discountedRatio (JObj.get product "price")))
      else .ok (fun product => product)
    | none => .ok (fun product => product)

/-- The comparison `product.category === category` against a string. -/
def categoryIs (product : Product) (category : String) : Bool :=
  match JObj.get product "category" with
  | some (.str c) => decide (c = category)
  | _ => false

/-- The arrow function `filterByCategory`: the predicate chosen by
`req.query["category"]`.  The filter is upper-cased, the product's category is not;
a missing or empty filter keeps everything. -/
def filterByCategory (h : Host) (query : Query) : Except JSError (Product → Bool) :=
  match query.category with
  | none => .ok (fun _ => true)
  | some (.arr _) => .error .typeError
  | some (.str s) =>
    let category := h.toUpperCase s
    if category ≠ "" then .ok (fun product => categoryIs product category)
    else .ok (fun _ => true)

/-- The arrow function `isValidPagination`; `typeof number === "number"` holds of
every `JSInt`. -/
def isValidPagination (number : JSInt) : Bool :=
  !number.isNaN && number.gt (.fin 0)

/-- Index clamping of `Array.prototype.slice`: `ToIntegerOrInfinity`, then a negative
index counts from the end, and the result is kept within `0 .. len`. -/
def sliceIndex (len : Nat) : JSInt → Nat
  | .nan => 0
  | .negInf => 0
  | .posInf => len
  | .fin z => if z < 0 then ((len : Int) + z).toNat else min z.toNat len

/-- The method `Array.prototype.slice(start, end)`. -/
def slice {α : Type} (arr : List α) (start end_ : JSInt) : List α :=
  let k := sliceIndex arr.length start
  let final := sliceIndex arr.length end_
  (arr.drop k).take (final - k)

/-- A destructured key of `req.query` as `parseInt` reads it: `ToString` of the
value, or of the default (given here as its decimal string) when the key is
`undefined`. -/
def orDefault (v : Option QVal) (dflt : String) : String :=
  match v with
  | none => dflt
  | some x => x.toJSString

/-- The fixed result of `paginate` on invalid pagination. -/
def fallback {α : Type} : Paged α :=
  { page := .fin 1, limit := .fin 10, next := none, results := [] }

/-- The function `paginate`.  The destructuring defaults `10` and `1` apply when the key
is `undefined`; `parseInt` sees its argument through `ToString`. -/
def paginate {α : Type} (arr : List α) (query : Query) : Paged α :=
  let _limit := orDefault query.limit "10"
  let _page := orDefault query.page "1"
  let limit := parseInt _limit
  let page := parseInt _page
  let isInvalidPagination := !isValidPagination limit || !isValidPagination page
  if isInvalidPagination then fallback
  else
    let start := (page.sub (.fin 1)).mul limit
    let end_ := start.add limit
    let next := if (JSInt.fin arr.length).gt (limit.mul page) then some (page.add (.fin 1)) else none
    let results := slice arr start end_
    { page := page, limit := limit, next := next, results := results }

/-! ## Request handlers -/

/-- Handler of `GET /api/products/:id`. -/
def getProduct (h : Host) (products : Store) (id : String) (query : Query) :
    Except JSError (Response Product) :=
  match Store.get products id with
  | none => .ok (.sendStatus 404)
  | some productById =>
    match applyDiscount h query with
    | .error e => .error e
    | .ok discount => .ok (.json 200 (discount productById))

/-- The array `requestedProducts` of `GET /api/products`: filter, then discount. -/
def requestedProducts (h : Host) (products : Store) (query : Query) :
    Except JSError (List Product) :=
  match filterByCategory h query with
  | .error e => .error e
  | .ok keep =>
    match applyDiscount h query with
    | .error e => .error e
    | .ok discount => .ok (((Store.values products).filter keep).map discount)

/-- Handler of `GET /api/products`. -/
def getProducts (h : Host) (products : Store) (query : Query) :
    Except JSError (Response (Paged Product)) :=
  match requestedProducts h products query with
  | .error e => .error e
  | .ok requested => .ok (.json 200 (paginate requested query))

/-- The array `requiredProductFields`. -/
def requiredProductFields : List String := ["category", "name", "price"]

/-- The check `requiredProductFields.every(field => productFields.includes(field))`. -/
def isValidProduct (body : JObj) : Bool :=
  requiredProductFields.all (fun field => (JObj.keys body).contains field)

/-- Handler of `POST /api/products`; `newId` is what the call `_id()` returns. -/
def postProduct (products : Store) (newId : String) (body : JObj) :
    Store × Response JObj :=
  if !isValidProduct body then (products, .sendStatus 400)
  else
    let createdProduct := JObj.set body "id" (.str newId)
    (Store.set products newId createdProduct, .json 201 [("id", .str newId)])

/-- Handler of `PUT /api/products/:id`. -/
def putProduct (products : Store) (id : String) (body : JObj) : Store × Response Product :=
  if id = "" then (products, .sendStatus 404)
  else
    match Store.get products id with
    | none => (products, .sendStatus 404)
    | some _ =>
      if !isValidProduct body then (products, .sendStatus 400)
      else
        let replacedProduct := JObj.set body "id" (.str id)
        (Store.set products id replacedProduct, .json 201 replacedProduct)

/-- The object spread `...(v && { field: v })` of the partial update: one property
when the payload's value is truthy, nothing otherwise. -/
def truthyField (body : JObj) (field : String) : JObj :=
  match JObj.get body field with
  | some v => if v.truthy then [(field, v)] else []
  | none => []

/-- Handler of `PATCH /api/products/:id`. -/
def patchProduct (products : Store) (id : String) (body : JObj) : Store × Response Product :=
  if id = "" then (products, .sendStatus 404)
  else
    match Store.get products id with
    | none => (products, .sendStatus 404)
    | some productById =>
      let updatedPartialProduct :=
        truthyField body "category" ++ truthyField body "name" ++ truthyField body "price"
      let updatedProduct :=
        JObj.set (JObj.assign productById updatedPartialProduct) "id" (.str id)
      (Store.set products id updatedProduct, .json 201 updatedProduct)

/-- Handler of `DELETE /api/products/:id`. -/
def deleteProduct (products : Store) (id : String) : Store × Response Unit :=
  if id = "" then (products, .sendStatus 404)
  else if !Store.has products id then (products, .sendStatus 404)
  else (Store.delete products id, .sendStatus 204)

/-! ## Vocabulary of the statements -/

/-- A value no smaller than `2^53`: `Infinity`, or a finite double from there on. -/
def Big (x : JSInt) : Prop := x = .posInf ∨ ∃ v : Int, x = .fin v ∧ (exactBound : Int) ≤ v

/-- The number is a positive integer. -/
def IsPositiveInteger (x : JSInt) : Prop := ∃ n : Int, 0 < n ∧ x = .fin n

/-- The number is `NaN`, zero or negative (`-Infinity` included). -/
def NaNOrNotPositive (x : JSInt) : Prop :=
  x = .nan ∨ x = .negInf ∨ ∃ z : Int, z ≤ 0 ∧ x = .fin z

/-- Whether the predicate `filterByCategory(req)` accepts `product`. -/
def keptByCategory (h : Host) (query : Query) (product : Product) : Except JSError Bool :=
  match filterByCategory h query with
  | .error e => .error e
  | .ok keep => .ok (keep product)

/-- Case-insensitive agreement of a product's category with an optional filter
string, both sides folded by `toUpperCase`; no filter agrees with everything. -/
def CategoryMatches (h : Host) (filter : Option String) (product : Product) : Prop :=
  match filter with
  | none => True
  | some f => ∃ c, JObj.get product "category" = some (.str c) ∧
      h.toUpperCase c = h.toUpperCase f

/-- A query with at most a category filter. -/
def categoryQuery (filter : Option String) : Query :=
  { category := filter.map QVal.str, discount := none, limit := none, page := none }

/-- A query with at most `limit` and `page`. -/
def pageQuery (limit page : Option String) : Query :=
  { category := none, discount := none, limit := limit.map QVal.str, page := page.map QVal.str }

/-- The properties `field` of two payloads agree on the three product fields. -/
def SameProductFields (b1 b2 : JObj) : Prop :=
  ∀ field ∈ requiredProductFields, JObj.get b1 field = JObj.get b2 field

/-! ## Data of the worked examples -/

/-- The host of the worked examples: upper-casing of the letters `a`–`z`, which is what
`toUpperCase` does on ASCII strings. -/
def exampleHost : Host :=
  { toUpperCase := fun s => String.mk (s.toList.map Char.toUpper) }

/-- The first seed product of `server.js`. -/
def apple : Product :=
  [("id", .str "_jappko"), ("category", .str "FOOD"), ("name", .str "Apple"),
    ("price", .num (toDouble (211 / 5)))]

/-- A store holding the first seed product. -/
def appleStore : Store := [("_jappko", apple)]

/-- A product created with a lower-case category. -/
def rice : Product :=
  [("category", .str "food"), ("name", .str "Rice"), ("price", .num (.fin 3)),
    ("id", .str "_1a2b")]

/-- The decimal numeral of `10^309`, a `1` followed by 309 zeros. -/
def hugeDigits : String := String.mk ('1' :: List.replicate 309 '0')

/-- Twenty-five items to paginate. -/
def sampleItems : List Nat := List.range 25

/-! ## Identifiers, the initial store, sequences of requests -/

/-- The function `_id`, as a function of the integer
`Math.round(Date.now() * Math.random())`: an underscore, then the hexadecimal digits of
the integer without the first two (`.toString(16).slice(2)`). -/
def _id (r : Nat) : String := String.mk ('_' :: (Nat.toDigits 16 r).drop 2)

/-- Modelled from the spec: the file `products.json` is not among the sources; the spec
gives its format as a sequence of `{category, name, price}`. -/
structure JsonProduct where
  category : JVal
  name : JVal
  price : JVal

/-- An entry `[p.id, p]` of the array the map is built from, for a product
`{ id, category, name, price }`. -/
def seedEntry (id : String) (category name price : JVal) : String × Product :=
  (id, [("id", .str id), ("category", category), ("name", name), ("price", price)])

/-- The entries of `new Map([...])`: the five built-in products, then those of
`products.json`; `r1 .. r4` and the first components of `productsJson` are the integers
behind the calls of `_id()`. -/
def seedEntries (r1 r2 r3 r4 : Nat) (productsJson : List (Nat × JsonProduct)) :
    List (String × Product) :=
  [seedEntry "_jappko" (.str "FOOD") (.str "Apple") (.num (toDouble (211 / 5))),
    seedEntry (_id r1) (.str "FOOD") (.str "Banana") (.num (toDouble (1337 / 100))),
    seedEntry (_id r2) (.str "FOOD") (.str "Corn") (.num (toDouble (69 / 100))),
    seedEntry (_id r3) (.str "FURNITURE") (.str "Sofa") (.num (.fin 2400)),
    seedEntry (_id r4) (.str "FURNITURE") (.str "Chair") (.num (.fin 1234))] ++
  productsJson.map (fun e => seedEntry (_id e.1) e.2.category e.2.name e.2.price)

/-- The constructor `new Map(entries)`: the entries are set one after the other. -/
def Store.ofEntries (entries : List (String × Product)) : Store :=
  entries.foldl (fun m e => Store.set m e.1 e.2) []

/-- The initial value of `products`. -/
def initialProducts (r1 r2 r3 r4 : Nat) (productsJson : List (Nat × JsonProduct)) : Store :=
  Store.ofEntries (seedEntries r1 r2 r3 r4 productsJson)

/-- A request that writes to the store; `post` carries the integer behind its `_id()`. -/
inductive Request where
  | post (r : Nat) (body : JObj)
  | put (id : String) (body : JObj)
  | patch (id : String) (body : JObj)
  | delete (id : String)

/-- The store after a request. -/
def Request.run (products : Store) : Request → Store
  | .post r body => (postProduct products (_id r) body).1
  | .put id body => (putProduct products id body).1
  | .patch id body => (patchProduct products id body).1
  | .delete id => (deleteProduct products id).1

/-- The store after a sequence of requests, served one at a time. -/
def serve (products : Store) (requests : List Request) : Store :=
  requests.foldl Request.run products

/-- The keys of the map, in iteration order. -/
def Store.keys (s : Store) : List String := s.map Prod.fst

/-- The invariant of the data model: every product of the store has a non-empty id
that is the key it is stored under. -/
def StoreInv (s : Store) : Prop :=
  ∀ e ∈ s, e.1 ≠ "" ∧ JObj.get e.2 "id" = some (.str e.1)

/-- The property `id` of a product. -/
def productId (product : Product) : Option JVal := JObj.get product "id"

/-- The number of the last page that holds items: `ceil(T / l)`, and 1 for no item. -/
def lastPage (T l : Nat) : Nat := max 1 ((T + l - 1) / l)

/-- A query for page `p` with limit 10, the page written in decimal digits. -/
def tenPerPage (p : Nat) : Query := pageQuery (some "10") (some (Nat.repr p))

/-- A query with at most a discount code. -/
def discountQuery (code : Option String) : Query :=
  { category := none, discount := code.map QVal.str, limit := none, page := none }

/-! ## Objects by reference -/

/-- The objects allocated so far; a reference is a position in this list. -/
abbrev Memory := List JObj

/-- The object that a reference points to. -/
def Memory.read (m : Memory) (ref : Nat) : JObj := m.getD ref []

/-- The map `products` with its values held by reference, as JavaScript holds them. -/
abbrev RefStore := List (String × Nat)

/-- The store that a memory and a map of references stand for. -/
def RefStore.deref (m : Memory) (s : RefStore) : Store :=
  s.map (fun e => (e.1, m.read e.2))

/-- The function `applyDiscount` on references: `(product) => product` returns the
reference it is given; `(product) => ({ ...product, price: ... })` allocates a new
object and writes to no existing one. -/
def applyDiscountRef (h : Host) (query : Query) :
    Except JSError (Memory → Nat → Memory × Nat) :=
  match query.discount with
  | none => .ok (fun m product => (m, product))
  | some (.arr _) => .error .typeError
  | some (.str code) =>
    match discountCodes.lookup (h.toUpperCase code) with
    | some discountedRatio =>
      if discountedRatio.truthy then
        .ok (fun m product =>
          (m ++ [JObj.set (m.read product) "price"
            (discountedPrice discountedRatio (JObj.get (m.read product) "price"))], m.length))
      else .ok (fun m product => (m, product))
    | none => .ok (fun m product => (m, product))

/-- The method `Array.prototype.map` with a callback that may allocate. -/
def mapRef (f : Memory → Nat → Memory × Nat) (m : Memory) : List Nat → Memory × List Nat
  | [] => (m, [])
  | ref :: rest => ((mapRef f (f m ref).1 rest).1, (f m ref).2 :: (mapRef f (f m ref).1 rest).2)

/-- Handler of `GET /api/products/:id` on references: the memory and the map after the
request, and what is sent. -/
def getProductRef (h : Host) (m : Memory) (products : RefStore) (id : String) (query : Query) :
    Memory × RefStore × Except JSError (Response Nat) :=
  match products.lookup id with
  | none => (m, products, .ok (.sendStatus 404))
  | some productById =>
    match applyDiscountRef h query with
    | .error e => (m, products, .error e)
    | .ok discount => ((discount m productById).1, products,
        .ok (.json 200 (discount m productById).2))

/-- Handler of `GET /api/products` on references. -/
def getProductsRef (h : Host) (m : Memory) (products : RefStore) (query : Query) :
    Memory × RefStore × Except JSError (Response (Paged Nat)) :=
  match filterByCategory h query with
  | .error e => (m, products, .error e)
  | .ok keep =>
    match applyDiscountRef h query with
    | .error e => (m, products, .error e)
    | .ok discount =>
      ((mapRef discount m ((products.map Prod.snd).filter (fun ref => keep (m.read ref)))).1,
        products,
        .ok (.json 200 (paginate
          (mapRef discount m ((products.map Prod.snd).filter (fun ref => keep (m.read ref)))).2
          query)))

/-- A response with its body transformed. -/
def Response.map {β γ : Type} (f : β → γ) : Response β → Response γ
  | .sendStatus code => .sendStatus code
  | .json code body => .json code (f body)

/-- An envelope with its results transformed. -/
def Paged.map {α β : Type} (f : α → β) (paged : Paged α) : Paged β :=
  { page := paged.page, limit := paged.limit, next := paged.next,
    results := paged.results.map f }

/-- What is sent, with every reference replaced by the object it points to. -/
def sent {β γ : Type} (f : β → γ) :
    Except JSError (Response β) → Except JSError (Response γ)
  | .error e => .error e
  | .ok response => .ok (response.map f)

/-- A callback on references `byRef` does what the callback on values `byValue` does,
and only allocates: the memory after the call is the memory before it followed by new
objects, and the reference returned points to the value that `byValue` returns. -/
def Allocates (byRef : Memory → Nat → Memory × Nat) (byValue : Product → Product) : Prop :=
  ∀ (m : Memory) (ref : Nat), ∃ extra, (byRef m ref).1 = m ++ extra ∧
    (ref < m.length → (byRef m ref).2 < (byRef m ref).1.length ∧
      Memory.read (byRef m ref).1 (byRef m ref).2 = byValue (Memory.read m ref))

/-! ## Rounding to doubles -/

theorem roundToDouble_small {n : Nat} (h : n < exactBound) : roundToDouble n = some n := by
  unfold roundToDouble
  rw [if_pos h]

theorem two_pow_log2_le {n : Nat} (h : exactBound ≤ n) :
    ∃ e, Nat.log2 n - 52 = e + 1 ∧ 2 ^ 52 * 2 ^ (e + 1) ≤ n := by
  have hn0 : n ≠ 0 := by
    intro h0; rw [h0] at h; exact absurd h (by decide)
  have hlog : 53 ≤ Nat.log2 n := (Nat.le_log2 hn0).mpr h
  have hpow : 2 ^ (Nat.log2 n) ≤ n := Nat.log2_self_le hn0
  refine ⟨Nat.log2 n - 53, by omega, ?_⟩
  calc 2 ^ 52 * 2 ^ (Nat.log2 n - 53 + 1) = 2 ^ (Nat.log2 n) := by
        rw [← pow_add]; congr 1; omega
    _ ≤ n := hpow

/-- The rounded significand is at least the truncated one, which is at least `2^52`. -/
theorem roundToDouble_eq {n : Nat} (h : exactBound ≤ n) :
    ∃ m, exactBound ≤ m ∧ roundToDouble n = if m < overflowBound then some m else none := by
  unfold roundToDouble
  rw [if_neg (Nat.not_lt.mpr h)]
  obtain ⟨e, he, hle⟩ := two_pow_log2_le h
  simp only [he]
  have hq : 2 ^ 52 ≤ n / 2 ^ (e + 1) := by
    rw [Nat.le_div_iff_mul_le (by positivity)]; exact hle
  have hpe : 2 ^ 1 ≤ 2 ^ (e + 1) := Nat.pow_le_pow_right (by norm_num) (by omega)
  have hbase : exactBound ≤ n / 2 ^ (e + 1) * 2 ^ (e + 1) := by
    calc exactBound = 2 ^ 52 * 2 ^ 1 := by decide
      _ ≤ n / 2 ^ (e + 1) * 2 ^ (e + 1) := Nat.mul_le_mul hq hpe
  refine ⟨_, ?_, rfl⟩
  by_cases hc : 2 ^ (e + 1) < 2 * (n % 2 ^ (e + 1)) ∨
      (2 * (n % 2 ^ (e + 1)) = 2 ^ (e + 1) ∧ n / 2 ^ (e + 1) % 2 = 1)
  · rw [if_pos hc]
    exact le_trans hbase (Nat.mul_le_mul_right _ (Nat.le_succ _))
  · rw [if_neg hc]
    exact hbase

theorem roundToDouble_large {n v : Nat} (h : exactBound ≤ n) (hv : roundToDouble n = some v) :
    exactBound ≤ v := by
  obtain ⟨m, hm, heq⟩ := roundToDouble_eq h
  rw [heq] at hv
  by_cases hc : m < overflowBound
  · rw [if_pos hc] at hv
    exact (Option.some.inj hv) ▸ hm
  · rw [if_neg hc] at hv
    exact absurd hv (by simp)

theorem overflowBound_eq : overflowBound = 2 ^ 1024 := by
  rw [overflowBound]

set_option exponentiation.threshold 2000 in
theorem exactBound_le_overflowBound : exactBound ≤ overflowBound := by
  rw [overflowBound_eq]
  exact Nat.pow_le_pow_right (by decide) (by decide)

set_option exponentiation.threshold 2000 in
theorem roundToDouble_overflow {n : Nat} (h : overflowBound ≤ n) : roundToDouble n = none := by
  have hb : exactBound ≤ n := le_trans exactBound_le_overflowBound h
  unfold roundToDouble
  rw [if_neg (Nat.not_lt.mpr hb)]
  obtain ⟨e, he, hle⟩ := two_pow_log2_le hb
  have hn0 : n ≠ 0 := by
    intro h0; rw [h0] at hb; exact absurd hb (by decide)
  have hlog : 1024 ≤ Nat.log2 n := (Nat.le_log2 hn0).mpr (by rw [overflowBound_eq] at h; exact h)
  have hq : 2 ^ 52 ≤ n / 2 ^ (e + 1) := by
    rw [Nat.le_div_iff_mul_le (by positivity)]; exact hle
  have hpe : 2 ^ 972 ≤ 2 ^ (e + 1) := Nat.pow_le_pow_right (by norm_num) (by omega)
  have hbase : overflowBound ≤ n / 2 ^ (e + 1) * 2 ^ (e + 1) := by
    calc overflowBound = 2 ^ 52 * 2 ^ 972 := by rw [overflowBound_eq, ← pow_add]
      _ ≤ n / 2 ^ (e + 1) * 2 ^ (e + 1) := Nat.mul_le_mul hq hpe
  simp only [he]
  rw [if_neg]
  apply Nat.not_lt.mpr
  by_cases hc : 2 ^ (e + 1) < 2 * (n % 2 ^ (e + 1)) ∨
      (2 * (n % 2 ^ (e + 1)) = 2 ^ (e + 1) ∧ n / 2 ^ (e + 1) % 2 = 1)
  · rw [if_pos hc]
    exact le_trans hbase (Nat.mul_le_mul_right _ (Nat.le_succ _))
  · rw [if_neg hc]
    exact hbase


/-! ## Arithmetic below and above `2^53` -/

theorem exactBound_eq : exactBound = 9007199254740992 := by decide

theorem ofInt_small {z : Int} (h0 : 0 ≤ z) (h : z < exactBound) : JSInt.ofInt z = .fin z := by
  have hlt : z.natAbs < exactBound := by omega
  unfold JSInt.ofInt JSInt.ofSignMag
  rw [roundToDouble_small hlt]
  have hneg : decide (z < 0) = false := by simp; omega
  simp only [hneg]
  congr 1
  simp
  omega

theorem ofInt_big {z : Int} (h : (exactBound : Int) ≤ z) : Big (JSInt.ofInt z) := by
  have hle : exactBound ≤ z.natAbs := by omega
  have hneg : decide (z < 0) = false := by simp; omega
  unfold JSInt.ofInt JSInt.ofSignMag
  rw [hneg]
  cases hr : roundToDouble z.natAbs with
  | none => exact Or.inl rfl
  | some v =>
    refine Or.inr ⟨(v : Int), by simp, ?_⟩
    exact_mod_cast roundToDouble_large hle hr

theorem sliceIndex_big {x : JSInt} (hx : Big x) {len : Nat} (hlen : len < exactBound) :
    sliceIndex len x = len := by
  rcases hx with rfl | ⟨v, rfl, hv⟩
  · rfl
  · have : ¬ v < 0 := by omega
    simp only [sliceIndex, if_neg this]
    omega

theorem gt_big {x : JSInt} (hx : Big x) {len : Nat} (hlen : len < exactBound) :
    (JSInt.fin len).gt x = false := by
  rcases hx with rfl | ⟨v, rfl, hv⟩
  · rfl
  · unfold JSInt.gt
    simp
    omega

theorem isValidPagination_fin (z : Int) : isValidPagination (.fin z) = decide (0 < z) := by
  simp [isValidPagination, JSInt.isNaN, JSInt.gt]

/-- On valid finite pagination `paginate` takes its second branch. -/
theorem paginate_valid {α : Type} (arr : List α) (query : Query) (p l : Int)
    (hl : parseInt (orDefault query.limit "10") = .fin l)
    (hp : parseInt (orDefault query.page "1") = .fin p) (hl0 : 0 < l) (hp0 : 0 < p) :
    paginate arr query =
      { page := .fin p, limit := .fin l,
        next := if (JSInt.fin arr.length).gt ((JSInt.fin l).mul (.fin p)) then
          some ((JSInt.fin p).add (.fin 1)) else none,
        results := slice arr (((JSInt.fin p).sub (.fin 1)).mul (.fin l))
          ((((JSInt.fin p).sub (.fin 1)).mul (.fin l)).add (.fin l)) } := by
  unfold paginate
  simp only [hl, hp, isValidPagination_fin]
  simp [hl0, hp0]

/-! ## Pagination -/

/-- The `next` of a valid page, with the product and the sum taken in the integers. -/
theorem paginate_next_eq {α : Type} (arr : List α) (query : Query) (p l : Int)
    (hlen : arr.length < 2 ^ 32)
    (hl : parseInt (orDefault query.limit "10") = .fin l)
    (hp : parseInt (orDefault query.page "1") = .fin p) (hl0 : 0 < l) (hp0 : 0 < p) :
    (paginate arr query).next =
      if l * p < arr.length then some (.fin (p + 1)) else none := by
  have hB := exactBound_eq
  rw [paginate_valid arr query p l hl hp hl0 hp0]
  simp only
  have hpl : p ≤ l * p := le_mul_of_one_le_left (le_of_lt hp0) hl0
  have hmul : (JSInt.fin l).mul (.fin p) = JSInt.ofInt (l * p) := rfl
  have hadd : (JSInt.fin p).add (.fin 1) = JSInt.ofInt (p + 1) := rfl
  rw [hmul, hadd]
  by_cases hsmall : l * p < exactBound
  · rw [ofInt_small (by positivity) hsmall]
    by_cases hT : l * p < arr.length
    · have h1 : (JSInt.fin arr.length).gt (.fin (l * p)) = true := by simp [JSInt.gt, hT]
      rw [h1, if_pos hT, if_pos rfl, ofInt_small (by omega) (by omega)]
    · have h1 : (JSInt.fin arr.length).gt (.fin (l * p)) = false := by simp [JSInt.gt, hT]
      rw [h1, if_neg hT]; simp
  · have hbig := ofInt_big (z := l * p) (by omega)
    rw [gt_big hbig (by omega)]
    have hT : ¬ l * p < arr.length := by omega
    rw [if_neg hT]; simp

/-- Claim C1: for a list of length `T` (a JavaScript array, so `T < 2^32`) and a limit
and a page that parse to positive integers `l` and `p`, `paginate` returns
`next = p + 1` if and only if `T > l * p`, and `next = null` otherwise.  The products
`l * p` and the sum `p + 1` are those of the integers, although the code computes
them in doubles. -/
theorem paginate_next_iff {α : Type} (arr : List α) (query : Query) (p l : Int)
    (hlen : arr.length < 2 ^ 32)
    (hl : parseInt (orDefault query.limit "10") = .fin l)
    (hp : parseInt (orDefault query.page "1") = .fin p) (hl0 : 0 < l) (hp0 : 0 < p) :
    ((paginate arr query).next = some (.fin (p + 1)) ↔ l * p < arr.length) ∧
    ((paginate arr query).next = none ↔ ¬ l * p < arr.length) := by
  have key := paginate_next_eq arr query p l hlen hl hp hl0 hp0
  refine ⟨?_, ?_⟩
  · rw [key]; by_cases hT : l * p < arr.length <;> simp [hT]
  · rw [key]; by_cases hT : l * p < arr.length <;> simp [hT]

/-- Page 2 of 25 items by 10 has a next page, since `25 > 10 * 2`. -/
theorem paginate_next_iff_witness :
    ((paginate sampleItems (pageQuery (some "10") (some "2"))).next = some (.fin (2 + 1)) ↔
      (10 : Int) * 2 < sampleItems.length) ∧
    ((paginate sampleItems (pageQuery (some "10") (some "2"))).next = none ↔
      ¬ (10 : Int) * 2 < sampleItems.length) :=
  paginate_next_iff sampleItems (pageQuery (some "10") (some "2")) 2 10
    (by decide) (by decide) (by decide) (by decide) (by decide)

theorem slice_of_start_big {α : Type} (arr : List α) {start : JSInt} (end_ : JSInt)
    (hs : Big start) (hlen : arr.length < exactBound) : slice arr start end_ = [] := by
  unfold slice
  simp only [sliceIndex_big hs hlen]
  simp

theorem take_drop_clamp {α : Type} (arr : List α) (s l : Nat) :
    (arr.drop (min s arr.length)).take (min (s + l) arr.length - min s arr.length) =
      (arr.drop s).take l := by
  by_cases hs : s ≤ arr.length
  · rw [Nat.min_eq_left hs]
    apply List.ext_getElem?
    intro i
    simp only [List.getElem?_take, List.getElem?_drop]
    by_cases hi : i < l
    · rw [if_pos hi]
      by_cases hi2 : i < min (s + l) arr.length - s
      · rw [if_pos hi2]
      · rw [if_neg hi2]
        symm
        apply List.getElem?_eq_none
        omega
    · rw [if_neg hi, if_neg (by omega)]
  · have h1 : arr.drop s = [] := List.drop_eq_nil_of_le (by omega)
    have h2 : arr.drop (min s arr.length) = [] := List.drop_eq_nil_of_le (by omega)
    rw [h1, h2]; simp

theorem drop_whole_take {α : Type} (arr : List α) (s l : Nat) (h : arr.length ≤ s + l) :
    (arr.drop (min s arr.length)).take (arr.length - min s arr.length) = (arr.drop s).take l := by
  rw [← take_drop_clamp arr s l, Nat.min_eq_right h]

/-- The results of a valid page, with the positions taken in the integers. -/
theorem paginate_results_eq {α : Type} (arr : List α) (query : Query) (p l : Int)
    (hlen : arr.length < 2 ^ 32)
    (hl : parseInt (orDefault query.limit "10") = .fin l)
    (hp : parseInt (orDefault query.page "1") = .fin p) (hl0 : 0 < l) (hp0 : 0 < p) :
    (paginate arr query).results = (arr.drop ((p - 1) * l).toNat).take l.toNat := by
  have hB := exactBound_eq
  have hnn : 0 ≤ (p - 1) * l := mul_nonneg (by omega) (le_of_lt hl0)
  rw [paginate_valid arr query p l hl hp hl0 hp0]
  simp only
  have hsub : (JSInt.fin p).sub (.fin 1) = JSInt.ofInt (p - 1) := rfl
  rw [hsub]
  by_cases hp1 : p - 1 < exactBound
  · rw [ofInt_small (by omega) hp1]
    have hmul : (JSInt.fin (p - 1)).mul (.fin l) = JSInt.ofInt ((p - 1) * l) := rfl
    rw [hmul]
    by_cases hs : (p - 1) * l < exactBound
    · rw [ofInt_small hnn hs]
      have hadd : (JSInt.fin ((p - 1) * l)).add (.fin l) = JSInt.ofInt ((p - 1) * l + l) := rfl
      rw [hadd]
      obtain ⟨s, hs_eq⟩ : ∃ s : Nat, (p - 1) * l = s := ⟨((p - 1) * l).toNat, by omega⟩
      obtain ⟨l', hl_eq⟩ : ∃ l' : Nat, l = l' := ⟨l.toNat, by omega⟩
      rw [hs_eq] at hs ⊢
      have hl'0 : 0 < l' := by omega
      by_cases he : (s : Int) + l < exactBound
      · rw [ofInt_small (by omega) he]
        have h1 : sliceIndex arr.length (.fin (s : Int)) = min s arr.length := by
          simp [sliceIndex]
        have h2 : sliceIndex arr.length (.fin ((s : Int) + l)) = min (s + l') arr.length := by
          have : ¬ ((s : Int) + l < 0) := by omega
          simp only [sliceIndex, if_neg this]
          congr 1
          omega
        unfold slice
        simp only [h1, h2]
        rw [take_drop_clamp]
        simp [hl_eq]
      · have hbig := ofInt_big (z := (s : Int) + l) (by omega)
        have h1 : sliceIndex arr.length (.fin (s : Int)) = min s arr.length := by
          simp [sliceIndex]
        unfold slice
        simp only [h1, sliceIndex_big hbig (show arr.length < exactBound by omega)]
        rw [drop_whole_take arr s l' (by omega)]
        simp [hl_eq]
    · have hbig := ofInt_big (z := (p - 1) * l) (by omega)
      rw [slice_of_start_big arr _ hbig (by omega)]
      have : arr.drop ((p - 1) * l).toNat = [] := List.drop_eq_nil_of_le (by omega)
      rw [this]; simp
  · have hbig := ofInt_big (z := p - 1) (by omega)
    have hbig2 : Big ((JSInt.ofInt (p - 1)).mul (.fin l)) := by
      rcases hbig with h | ⟨v, h, hv⟩
      · rw [h]
        left
        show JSInt.infMul false l = .posInf
        unfold JSInt.infMul
        rw [if_neg (by omega)]
        simp; omega
      · rw [h]
        show Big (JSInt.ofInt (v * l))
        apply ofInt_big
        have : v ≤ v * l := le_mul_of_one_le_right (by omega) hl0
        omega
    rw [slice_of_start_big arr _ hbig2 (by omega)]
    have hge : (exactBound : Int) ≤ (p - 1) * l := by
      have : p - 1 ≤ (p - 1) * l := le_mul_of_one_le_right (by omega) hl0
      omega
    have : arr.drop ((p - 1) * l).toNat = [] := List.drop_eq_nil_of_le (by omega)
    rw [this]; simp

/-- Claim C2: for a list shorter than `2^32` and a limit and a page that parse to
positive integers `l` and `p`, the results of `paginate` are the elements at
positions `(p-1)*l` up to `(p-1)*l + l` in their order (drop `(p-1)*l`, take `l`), so
at most `l` of them and none when `(p-1)*l` is at least the length; the returned
page and limit are the parsed ones. -/
theorem paginate_results {α : Type} (arr : List α) (query : Query) (p l : Int)
    (hlen : arr.length < 2 ^ 32)
    (hl : parseInt (orDefault query.limit "10") = .fin l)
    (hp : parseInt (orDefault query.page "1") = .fin p) (hl0 : 0 < l) (hp0 : 0 < p) :
    (paginate arr query).results = (arr.drop ((p - 1) * l).toNat).take l.toNat ∧
    ((paginate arr query).results.length : Int) ≤ l ∧
    ((arr.length : Int) ≤ (p - 1) * l → (paginate arr query).results = []) ∧
    (paginate arr query).page = .fin p ∧ (paginate arr query).limit = .fin l := by
  have hnn : 0 ≤ (p - 1) * l := mul_nonneg (by omega) (le_of_lt hl0)
  have key := paginate_results_eq arr query p l hlen hl hp hl0 hp0
  refine ⟨key, ?_, ?_, ?_, ?_⟩
  · rw [key, List.length_take]
    omega
  · intro hge
    rw [key]
    have : arr.drop ((p - 1) * l).toNat = [] := List.drop_eq_nil_of_le (by omega)
    rw [this]; simp
  · rw [paginate_valid arr query p l hl hp hl0 hp0]
  · rw [paginate_valid arr query p l hl hp hl0 hp0]

/-- Page 3 of 25 items by 10 holds the items 20 to 24. -/
theorem paginate_results_witness :
    (paginate sampleItems (pageQuery (some "10") (some "3"))).results =
        (sampleItems.drop (((3 : Int) - 1) * 10).toNat).take (10 : Int).toNat ∧
    ((paginate sampleItems (pageQuery (some "10") (some "3"))).results.length : Int) ≤ 10 ∧
    ((sampleItems.length : Int) ≤ ((3 : Int) - 1) * 10 →
      (paginate sampleItems (pageQuery (some "10") (some "3"))).results = []) ∧
    (paginate sampleItems (pageQuery (some "10") (some "3"))).page = .fin 3 ∧
    (paginate sampleItems (pageQuery (some "10") (some "3"))).limit = .fin 10 :=
  paginate_results sampleItems (pageQuery (some "10") (some "3")) 3 10
    (by decide) (by decide) (by decide) (by decide) (by decide)

/-! ## Digit strings -/

theorem foldl_digits_zeros (n acc : Nat) :
    (List.replicate n '0').foldl (fun acc c => 10 * acc + (c.toNat - 48)) acc = acc * 10 ^ n := by
  induction n generalizing acc with
  | zero => simp
  | succ k ih =>
    rw [List.replicate_succ, List.foldl_cons, ih]
    have : ('0' : Char).toNat - 48 = 0 := by decide
    rw [this, pow_succ]
    ring

theorem digitsValue_hugeDigits : digitsValue hugeDigits.toList = 10 ^ 309 := by
  show digitsValue ('1' :: List.replicate 309 '0') = 10 ^ 309
  unfold digitsValue
  rw [List.foldl_cons, foldl_digits_zeros]
  have : 10 * 0 + (('1' : Char).toNat - 48) = 1 := by decide
  rw [this, one_mul]

set_option exponentiation.threshold 2000 in
theorem overflowBound_le : overflowBound ≤ 10 ^ 309 := by
  rw [overflowBound_eq]
  decide

theorem isDigit_bounds {c : Char} (h : c.isDigit = true) : 48 ≤ c.toNat ∧ c.toNat ≤ 57 := by
  simp only [Char.isDigit, Bool.and_eq_true, decide_eq_true_eq] at h
  exact ⟨h.1, h.2⟩

theorem not_whiteSpace_of_isDigit {c : Char} (h : c.isDigit = true) :
    isStrWhiteSpaceChar c = false := by
  have hb := isDigit_bounds h
  simp only [isStrWhiteSpaceChar, Bool.or_eq_false_iff, Bool.and_eq_false_iff,
    decide_eq_false_iff_not, List.mem_cons, List.mem_singleton, List.not_mem_nil]
  refine ⟨?_, Or.inl (by omega)⟩
  simp only [or_false]
  omega

theorem splitSign_of_isDigit {c : Char} (rest : List Char) (h : c.isDigit = true) :
    splitSign (c :: rest) = (false, c :: rest) := by
  have hb := isDigit_bounds h
  have h1 : c ≠ '-' := by rintro rfl; revert hb; decide
  have h2 : c ≠ '+' := by rintro rfl; revert hb; decide
  unfold splitSign
  split
  · rename_i heq; cases heq; exact absurd rfl h1
  · rename_i heq; cases heq; exact absurd rfl h2
  · rfl

/-- An unsigned run of decimal digits parses to its value, rounded. -/
theorem parseInt_digits (c : Char) (rest : List Char)
    (hd : ∀ x ∈ c :: rest, x.isDigit = true) :
    parseInt (String.mk (c :: rest)) = JSInt.ofSignMag false (digitsValue (c :: rest)) := by
  have hc : c.isDigit = true := hd c (List.mem_cons_self _ _)
  have h1 : (c :: rest).dropWhile isStrWhiteSpaceChar = c :: rest :=
    List.dropWhile_cons_of_neg (by rw [not_whiteSpace_of_isDigit hc]; simp)
  have h3 : (c :: rest).takeWhile Char.isDigit = c :: rest :=
    List.takeWhile_eq_self_iff.mpr hd
  show (if ((splitSign ((c :: rest).dropWhile isStrWhiteSpaceChar)).2.takeWhile
      Char.isDigit).isEmpty then JSInt.nan
    else JSInt.ofSignMag (splitSign ((c :: rest).dropWhile isStrWhiteSpaceChar)).1
      (digitsValue ((splitSign ((c :: rest).dropWhile isStrWhiteSpaceChar)).2.takeWhile
        Char.isDigit))) = _
  rw [h1, splitSign_of_isDigit rest hc]
  simp only [h3]
  rfl

theorem ofSignMag_overflow {n : Nat} (h : overflowBound ≤ n) :
    JSInt.ofSignMag false n = .posInf := by
  unfold JSInt.ofSignMag
  rw [roundToDouble_overflow h]
  rfl

theorem parseInt_hugeDigits : parseInt hugeDigits = .posInf := by
  have hd : ∀ x ∈ '1' :: List.replicate 309 '0', x.isDigit = true := by
    intro x hx
    rcases List.mem_cons.mp hx with rfl | hx
    · decide
    · rw [List.eq_of_mem_replicate hx]; decide
  have h := parseInt_digits '1' (List.replicate 309 '0') hd
  have hv : digitsValue ('1' :: List.replicate 309 '0') = 10 ^ 309 := digitsValue_hugeDigits
  rw [hv, ofSignMag_overflow overflowBound_le] at h
  exact h

/-! ## Invalid and missing pagination -/

theorem isValidPagination_of_notPositive {x : JSInt} (h : NaNOrNotPositive x) :
    isValidPagination x = false := by
  rcases h with rfl | rfl | ⟨z, hz, rfl⟩
  · rfl
  · rfl
  · rw [isValidPagination_fin]
    simp
    exact hz

/-- Counterexample to claim C3 as stated: the limit `10^309`, written out in digits,
parses to `Infinity`, which is not a positive integer, yet `isValidPagination`
accepts it and `paginate` returns `limit: Infinity` with no results instead of the
fixed fallback with `limit: 10`. -/
theorem paginate_infinite_limit_not_fallback :
    ¬ IsPositiveInteger (parseInt (orDefault (pageQuery (some hugeDigits) none).limit "10")) ∧
    paginate [apple] (pageQuery (some hugeDigits) none) =
      { page := .fin 1, limit := .posInf, next := none, results := [] } ∧
    (paginate [apple] (pageQuery (some hugeDigits) none)).limit ≠
      (fallback : Paged Product).limit := by
  have hl : parseInt (orDefault (pageQuery (some hugeDigits) none).limit "10") = .posInf :=
    parseInt_hugeDigits
  have hp : parseInt (orDefault (pageQuery (some hugeDigits) none).page "1") = .fin 1 := by
    decide
  have hpag : paginate [apple] (pageQuery (some hugeDigits) none) =
      { page := .fin 1, limit := .posInf, next := none, results := [] } := by
    unfold paginate
    simp only [hl, hp]
    rfl
  refine ⟨?_, hpag, ?_⟩
  · rw [hl]
    rintro ⟨n, _, h⟩
    cases h
  · rw [hpag]
    decide

/-- Claim C3, amended: when the parsed limit or the parsed page is `NaN`, zero or
negative (a string that is not numeric parses to `NaN`), `paginate` returns the fixed
fallback `{page: 1, limit: 10, next: null, results: []}`, whatever the list and the
other parameter are. -/
theorem paginate_invalid_fallback {α : Type} (arr : List α) (query : Query)
    (h : NaNOrNotPositive (parseInt (orDefault query.limit "10")) ∨
      NaNOrNotPositive (parseInt (orDefault query.page "1"))) :
    paginate arr query = fallback := by
  unfold paginate
  rcases h with h | h
  · simp [isValidPagination_of_notPositive h]
  · simp [isValidPagination_of_notPositive h]

/-- The inputs `limit=0`, `limit=-1`, `page=0` and `page="abc"` all give the fallback. -/
theorem paginate_invalid_fallback_witness :
    paginate sampleItems (pageQuery (some "0") none) = fallback ∧
    paginate sampleItems (pageQuery (some "-1") (some "2")) = fallback ∧
    paginate sampleItems (pageQuery none (some "0")) = fallback ∧
    paginate sampleItems (pageQuery (some "5") (some "abc")) = fallback :=
  ⟨paginate_invalid_fallback sampleItems (pageQuery (some "0") none)
      (Or.inl (Or.inr (Or.inr ⟨0, by decide, by decide⟩))),
    paginate_invalid_fallback sampleItems (pageQuery (some "-1") (some "2"))
      (Or.inl (Or.inr (Or.inr ⟨-1, by decide, by decide⟩))),
    paginate_invalid_fallback sampleItems (pageQuery none (some "0"))
      (Or.inr (Or.inr (Or.inr ⟨0, by decide, by decide⟩))),
    paginate_invalid_fallback sampleItems (pageQuery (some "5") (some "abc"))
      (Or.inr (Or.inl (by decide)))⟩

/-- Counterexample to claim C4 as stated: with no query at all, the collection read
of a store holding one product returns that product on page 1 with limit 10, not
the empty fallback. -/
theorem getProducts_missing_not_fallback :
    getProducts exampleHost appleStore (pageQuery none none) =
      .ok (.json 200 { page := .fin 1, limit := .fin 10, next := none, results := [apple] }) ∧
    ([apple] : List Product) ≠ (fallback : Paged Product).results := by
  refine ⟨rfl, ?_⟩
  intro h
  cases h

/-- Claim C4, amended: a collection read whose query has no `limit` and no `page` uses
the defaults 10 and 1: its answer is page 1 with limit 10, the first ten requested
products (filtered and discounted) as results, and `next = 2` exactly when more than
ten products are requested. -/
theorem getProducts_missing_pagination (h : Host) (products : Store) (query : Query)
    (requested : List Product) (hl : query.limit = none) (hp : query.page = none)
    (hreq : requestedProducts h products query = .ok requested) :
    getProducts h products query =
      .ok (.json 200 (Paged.mk (.fin 1) (.fin 10)
        (if 10 < requested.length then some (.fin 2) else none) (requested.take 10))) := by
  have hpl : parseInt (orDefault query.limit "10") = .fin 10 := by rw [hl]; decide
  have hpp : parseInt (orDefault query.page "1") = .fin 1 := by rw [hp]; decide
  unfold getProducts
  rw [hreq]
  simp only
  rw [paginate_valid requested query 1 10 hpl hpp (by decide) (by decide)]
  have h1 : (JSInt.fin 10).mul (.fin 1) = .fin 10 := by decide
  have h2 : (JSInt.fin 1).add (.fin 1) = .fin 2 := by decide
  have h3 : ((JSInt.fin 1).sub (.fin 1)).mul (.fin 10) = .fin 0 := by decide
  have h4 : (JSInt.fin 0).add (.fin 10) = .fin 10 := by decide
  rw [h1, h2, h3, h4]
  have hgt : (JSInt.fin requested.length).gt (.fin 10) = decide (10 < requested.length) := by
    simp [JSInt.gt]
  have hslice : slice requested (.fin 0) (.fin 10) = requested.take 10 := by
    simp [slice, sliceIndex]
  rw [hgt, hslice]
  by_cases hlen : 10 < requested.length <;> simp [hlen]

/-- With no query the one-product store answers with that product. -/
theorem getProducts_missing_pagination_witness :
    (pageQuery none none).limit = none ∧ (pageQuery none none).page = none ∧
    requestedProducts exampleHost appleStore (pageQuery none none) = .ok [apple] ∧
    getProducts exampleHost appleStore (pageQuery none none) =
      .ok (.json 200 (Paged.mk (.fin 1) (.fin 10)
        (if 10 < [apple].length then some (.fin 2) else none) ([apple].take 10))) :=
  ⟨rfl, rfl, rfl, getProducts_missing_pagination exampleHost appleStore (pageQuery none none)
    [apple] rfl rfl rfl⟩

/-! ## Objects and the store -/

theorem JObj.get_after_set (o : JObj) (k k1 : String) (v : JVal) :
    JObj.get (JObj.set o k v) k1 = if k1 = k then some v else JObj.get o k1 := by
  induction o with
  | nil =>
    by_cases hk : k1 = k
    · simp [JObj.set, JObj.get, hk]
    · have hk2 : ¬ k = k1 := fun e => hk e.symm
      simp [JObj.set, JObj.get, hk, hk2]
  | cons e rest ih =>
    obtain ⟨k0, v0⟩ := e
    by_cases h0 : k0 = k
    · by_cases hk : k1 = k
      · simp [JObj.set, JObj.get, h0, hk]
      · have hk2 : ¬ k = k1 := fun e => hk e.symm
        simp [JObj.set, JObj.get, h0, hk, hk2]
    · by_cases h1 : k0 = k1
      · have hk : ¬ k1 = k := fun e => h0 (h1.trans e)
        simp [JObj.set, JObj.get, h0, h1, hk]
      · simp [JObj.set, JObj.get, h0, h1, ih]

theorem Store.get_after_put (s : Store) (id id1 : String) (p : Product) :
    Store.get (Store.set s id p) id1 = if id1 = id then some p else Store.get s id1 := by
  induction s with
  | nil =>
    by_cases hk : id1 = id
    · simp [Store.set, Store.get, hk]
    · have hk2 : ¬ id = id1 := fun e => hk e.symm
      simp [Store.set, Store.get, hk, hk2]
  | cons e rest ih =>
    obtain ⟨k0, v0⟩ := e
    by_cases h0 : k0 = id
    · by_cases hk : id1 = id
      · simp [Store.set, Store.get, h0, hk]
      · have hk2 : ¬ id = id1 := fun e => hk e.symm
        simp [Store.set, Store.get, h0, hk, hk2]
    · by_cases h1 : k0 = id1
      · have hk : ¬ id1 = id := fun e => h0 (h1.trans e)
        simp [Store.set, Store.get, h0, h1, hk]
      · simp [Store.set, Store.get, h0, h1, ih]

theorem isValidProduct_iff (body : JObj) :
    isValidProduct body = true ↔
      "category" ∈ JObj.keys body ∧ "name" ∈ JObj.keys body ∧ "price" ∈ JObj.keys body := by
  simp [isValidProduct, requiredProductFields]

/-! ## Category filter -/

/-- Counterexample to claim C5 as stated: the filter `food` drops a product whose
stored category is `food`, although the two agree even without case folding; and the
empty filter string keeps a product of category `FOOD`, although the two differ. -/
theorem filterByCategory_not_case_insensitive :
    keptByCategory exampleHost (categoryQuery (some "food")) rice = .ok false ∧
    CategoryMatches exampleHost (some "food") rice ∧
    keptByCategory exampleHost (categoryQuery (some "")) apple = .ok true ∧
    ¬ CategoryMatches exampleHost (some "") apple := by
  refine ⟨rfl, ⟨"food", rfl, rfl⟩, rfl, ?_⟩
  rintro ⟨c, hc, hup⟩
  have hcat : JObj.get apple "category" = some (.str "FOOD") := rfl
  rw [hcat] at hc
  have hc1 : c = "FOOD" := by
    injection hc with hc
    injection hc with hc
    exact hc.symm
  rw [hc1] at hup
  revert hup
  decide

/-- Claim C5, amended: the collection read keeps every product when no category filter
is given or when the filter is the empty string; for a non-empty filter and a product
whose stored category is a string already in upper case, it keeps the product if and
only if the category equals the filter case-insensitively.  The category is stored as
provided by create. -/
theorem filterByCategory_keeps (h : Host) (product : Product) (products : Store)
    (newId : String) (body : JObj) :
    keptByCategory h (categoryQuery none) product = .ok true ∧
    (∀ f, h.toUpperCase f = "" → keptByCategory h (categoryQuery (some f)) product = .ok true) ∧
    (∀ f c, h.toUpperCase f ≠ "" → JObj.get product "category" = some (.str c) →
      h.toUpperCase c = c →
      (keptByCategory h (categoryQuery (some f)) product = .ok true ↔
        h.toUpperCase c = h.toUpperCase f)) ∧
    (isValidProduct body = true →
      ∃ created, Store.get (postProduct products newId body).1 newId = some created ∧
        JObj.get created "category" = JObj.get body "category") := by
  refine ⟨rfl, ?_, ?_, ?_⟩
  · intro f hf
    simp [keptByCategory, filterByCategory, categoryQuery, hf]
  · intro f c hf hc hup
    have hk : keptByCategory h (categoryQuery (some f)) product =
        .ok (categoryIs product (h.toUpperCase f)) := by
      simp [keptByCategory, filterByCategory, categoryQuery, hf]
    rw [hk]
    have hcat : categoryIs product (h.toUpperCase f) = decide (c = h.toUpperCase f) := by
      simp [categoryIs, hc]
    rw [hcat, hup]
    simp
  · intro hvalid
    refine ⟨JObj.set body "id" (.str newId), ?_, ?_⟩
    · simp [postProduct, hvalid, Store.get_after_put]
    · rw [JObj.get_after_set]
      simp

/-- The filter `food` keeps the seed product of category `FOOD`. -/
theorem filterByCategory_keeps_witness :
    exampleHost.toUpperCase "food" ≠ "" ∧
    JObj.get apple "category" = some (.str "FOOD") ∧
    exampleHost.toUpperCase "FOOD" = "FOOD" ∧
    (keptByCategory exampleHost (categoryQuery (some "food")) apple = .ok true ↔
      exampleHost.toUpperCase "FOOD" = exampleHost.toUpperCase "food") :=
  ⟨by decide, rfl, rfl,
    (filterByCategory_keeps exampleHost apple appleStore "_1a2b" rice).2.2.1 "food" "FOOD"
      (by decide) rfl rfl⟩

/-! ## Partial update -/

theorem JObj.assign_append (t a b : JObj) :
    JObj.assign t (a ++ b) = JObj.assign (JObj.assign t a) b := by
  simp [JObj.assign, List.foldl_append]

theorem get_assign_truthyField (t body : JObj) (f k : String) :
    JObj.get (JObj.assign t (truthyField body f)) k =
      if k = f ∧ truthy? (JObj.get body f) = true then JObj.get body f else JObj.get t k := by
  unfold truthyField
  cases hb : JObj.get body f with
  | none => simp [JObj.assign, truthy?]
  | some v =>
    by_cases hv : v.truthy = true
    · by_cases hk : k = f
      · simp [hv, hk, JObj.assign, JObj.get_after_set, truthy?]
      · simp [hv, hk, JObj.assign, JObj.get_after_set, truthy?]
    · simp [hv, JObj.assign, truthy?]

/-- The merged record of the partial update, property by property. -/
theorem get_assign_truthyFields (old body : JObj) (k : String) :
    JObj.get (JObj.assign old (truthyField body "category" ++ truthyField body "name" ++
        truthyField body "price")) k =
      if k ∈ requiredProductFields ∧ truthy? (JObj.get body k) = true then JObj.get body k
      else JObj.get old k := by
  rw [JObj.assign_append, JObj.assign_append, get_assign_truthyField, get_assign_truthyField,
    get_assign_truthyField]
  by_cases h1 : k = "price"
  · subst h1
    simp [requiredProductFields]
  · by_cases h2 : k = "name"
    · subst h2
      simp [requiredProductFields]
    · by_cases h3 : k = "category"
      · subst h3
        simp [requiredProductFields]
      · simp [requiredProductFields, h1, h2, h3]

/-- Claim C6: for an existing id, the partial update stores and returns a record in
which each of `category`, `name`, `price` holds the payload's value if that value is
present and truthy and the stored value otherwise, `id` is the id of the request, and
every other property is the stored one; the payload's other keys play no part. -/
theorem patchProduct_merge (products : Store) (id : String) (body old : JObj)
    (hid : id ≠ "") (hold : Store.get products id = some old) :
    ∃ updated : Product,
      patchProduct products id body = (Store.set products id updated, .json 201 updated) ∧
      Store.get (patchProduct products id body).1 id = some updated ∧
      (∀ field ∈ requiredProductFields, JObj.get updated field =
        if truthy? (JObj.get body field) = true then JObj.get body field
        else JObj.get old field) ∧
      JObj.get updated "id" = some (.str id) ∧
      (∀ k, k ∉ requiredProductFields → k ≠ "id" → JObj.get updated k = JObj.get old k) ∧
      (∀ body1, SameProductFields body1 body →
        patchProduct products id body1 = patchProduct products id body) := by
  have hpatch : ∀ b : JObj, patchProduct products id b =
      (Store.set products id (JObj.set (JObj.assign old (truthyField b "category" ++
          truthyField b "name" ++ truthyField b "price")) "id" (.str id)),
        .json 201 (JObj.set (JObj.assign old (truthyField b "category" ++
          truthyField b "name" ++ truthyField b "price")) "id" (.str id))) := by
    intro b
    simp [patchProduct, hid, hold]
  refine ⟨_, hpatch body, ?_, ?_, ?_, ?_, ?_⟩
  · rw [hpatch body, Store.get_after_put]
    simp
  · intro field hfield
    have hne : field ≠ "id" := by
      rintro rfl
      revert hfield
      decide
    rw [JObj.get_after_set, if_neg hne, get_assign_truthyFields]
    simp [hfield]
  · rw [JObj.get_after_set]
    simp
  · intro k hk hne
    rw [JObj.get_after_set, if_neg hne, get_assign_truthyFields]
    simp [hk]
  · intro body1 hsame
    have hf : ∀ field ∈ requiredProductFields,
        truthyField body1 field = truthyField body field := by
      intro field hfield
      unfold truthyField
      rw [hsame field hfield]
    rw [hpatch body1, hpatch body, hf "category" (by decide), hf "name" (by decide),
      hf "price" (by decide)]

/-- The payload `{price: 0}` leaves the stored apple as it is; `{price: 4.20}` changes
its price and nothing else. -/
theorem patchProduct_merge_witness :
    ("_jappko" ≠ "" ∧ Store.get appleStore "_jappko" = some apple) ∧
    (∃ updated : Product,
      patchProduct appleStore "_jappko" [("price", .num (.fin 0))] =
        (Store.set appleStore "_jappko" updated, .json 201 updated) ∧
      Store.get (patchProduct appleStore "_jappko" [("price", .num (.fin 0))]).1 "_jappko" =
        some updated ∧
      (∀ field ∈ requiredProductFields, JObj.get updated field =
        if truthy? (JObj.get [("price", .num (.fin 0))] field) = true then
          JObj.get [("price", .num (.fin 0))] field
        else JObj.get apple field) ∧
      JObj.get updated "id" = some (.str "_jappko") ∧
      (∀ k, k ∉ requiredProductFields → k ≠ "id" → JObj.get updated k = JObj.get apple k) ∧
      (∀ body1, SameProductFields body1 [("price", .num (.fin 0))] →
        patchProduct appleStore "_jappko" body1 =
          patchProduct appleStore "_jappko" [("price", .num (.fin 0))])) ∧
    (patchProduct appleStore "_jappko" [("price", .num (.fin 0))]).1 = appleStore ∧
    (patchProduct appleStore "_jappko" [("price", .num (.fin (21 / 5)))]).1 =
      [("_jappko", [("id", .str "_jappko"), ("category", .str "FOOD"), ("name", .str "Apple"),
        ("price", .num (.fin (21 / 5)))])] :=
  ⟨⟨by decide, rfl⟩,
    patchProduct_merge appleStore "_jappko" [("price", .num (.fin 0))] apple (by decide) rfl,
    by simp [patchProduct, appleStore, apple, Store.get, Store.set, truthyField, JObj.get,
      JObj.set, JObj.assign, JVal.truthy, JSNumber.truthy],
    by simp [patchProduct, appleStore, apple, Store.get, Store.set, truthyField, JObj.get,
      JObj.set, JObj.assign, JVal.truthy, JSNumber.truthy]⟩

/-! ## Replace -/

/-- Claim C7: for an existing id and a payload that has the keys `category`, `name`
and `price`, replace stores and returns the payload with `id` set to the id of the
request: every property other than `id` is the payload's (so a property that only the
old record had is gone), and an `id` inside the payload is overridden. -/
theorem putProduct_replaces (products : Store) (id : String) (body old : JObj)
    (hid : id ≠ "") (hold : Store.get products id = some old)
    (hvalid : "category" ∈ JObj.keys body ∧ "name" ∈ JObj.keys body ∧
      "price" ∈ JObj.keys body) :
    putProduct products id body =
      (Store.set products id (JObj.set body "id" (.str id)),
        .json 201 (JObj.set body "id" (.str id))) ∧
    Store.get (putProduct products id body).1 id = some (JObj.set body "id" (.str id)) ∧
    (∀ k, JObj.get (JObj.set body "id" (.str id)) k =
      if k = "id" then some (.str id) else JObj.get body k) ∧
    (∀ k, k ≠ "id" → JObj.get body k = none →
      JObj.get (JObj.set body "id" (.str id)) k = none) := by
  have hv : isValidProduct body = true := (isValidProduct_iff body).mpr hvalid
  have hput : putProduct products id body =
      (Store.set products id (JObj.set body "id" (.str id)),
        .json 201 (JObj.set body "id" (.str id))) := by
    simp [putProduct, hid, hold, hv]
  refine ⟨hput, ?_, ?_, ?_⟩
  · rw [hput, Store.get_after_put]
    simp
  · intro k
    exact JObj.get_after_set body "id" k (.str id)
  · intro k hk hnone
    rw [JObj.get_after_set, if_neg hk, hnone]

/-- Replacing the apple by a payload without `extra` fields and with its own `id`. -/
theorem putProduct_replaces_witness :
    ("_jappko" ≠ "" ∧ Store.get appleStore "_jappko" = some apple ∧
      "category" ∈ JObj.keys rice ∧ "name" ∈ JObj.keys rice ∧ "price" ∈ JObj.keys rice) ∧
    (putProduct appleStore "_jappko" rice =
      (Store.set appleStore "_jappko" (JObj.set rice "id" (.str "_jappko")),
        .json 201 (JObj.set rice "id" (.str "_jappko"))) ∧
    Store.get (putProduct appleStore "_jappko" rice).1 "_jappko" =
      some (JObj.set rice "id" (.str "_jappko")) ∧
    (∀ k, JObj.get (JObj.set rice "id" (.str "_jappko")) k =
      if k = "id" then some (.str "_jappko") else JObj.get rice k) ∧
    (∀ k, k ≠ "id" → JObj.get rice k = none →
      JObj.get (JObj.set rice "id" (.str "_jappko")) k = none)) :=
  ⟨⟨by decide, rfl, by decide, by decide, by decide⟩,
    putProduct_replaces appleStore "_jappko" rice apple (by decide) rfl
      ⟨by decide, by decide, by decide⟩⟩

/-- Claim C8: replace answers 404 (NotFound) if and only if the id is not a key of the
store, whatever the payload; it answers 400 (InvalidInput) if and only if the id is a
key and the payload lacks one of the keys `category`, `name`, `price`; in both cases
the store is left as it was.  The id is a route parameter, hence not empty. -/
theorem putProduct_errors (products : Store) (id : String) (body : JObj) (hid : id ≠ "") :
    ((putProduct products id body).2 = .sendStatus 404 ↔ Store.has products id = false) ∧
    ((putProduct products id body).2 = .sendStatus 400 ↔
      (Store.has products id = true ∧
        ¬ ("category" ∈ JObj.keys body ∧ "name" ∈ JObj.keys body ∧
          "price" ∈ JObj.keys body))) ∧
    ((putProduct products id body).2 = .sendStatus 404 ∨
      (putProduct products id body).2 = .sendStatus 400 →
      (putProduct products id body).1 = products) := by
  rw [← isValidProduct_iff]
  cases hget : Store.get products id with
  | none =>
    have hput : putProduct products id body = (products, .sendStatus 404) := by
      simp [putProduct, hid, hget]
    simp [hput, Store.has, hget]
  | some old =>
    by_cases hv : isValidProduct body = true
    · have hput : putProduct products id body =
          (Store.set products id (JObj.set body "id" (.str id)),
            .json 201 (JObj.set body "id" (.str id))) := by
        simp [putProduct, hid, hget, hv]
      simp [hput, Store.has, hget, hv]
    · have hput : putProduct products id body = (products, .sendStatus 400) := by
        simp [putProduct, hid, hget, hv]
      simp [hput, Store.has, hget, hv]

/-- An unknown id with an empty payload is NotFound, not InvalidInput. -/
theorem putProduct_errors_witness :
    "_nope" ≠ "" ∧
    ((putProduct appleStore "_nope" []).2 = .sendStatus 404 ↔
      Store.has appleStore "_nope" = false) ∧
    ((putProduct appleStore "_nope" []).2 = .sendStatus 400 ↔
      (Store.has appleStore "_nope" = true ∧
        ¬ ("category" ∈ JObj.keys [] ∧ "name" ∈ JObj.keys [] ∧ "price" ∈ JObj.keys []))) ∧
    ((putProduct appleStore "_nope" []).2 = .sendStatus 404 ∨
      (putProduct appleStore "_nope" []).2 = .sendStatus 400 →
      (putProduct appleStore "_nope" []).1 = appleStore) :=
  ⟨by decide, putProduct_errors appleStore "_nope" [] (by decide)⟩

/-! ## Create -/

/-- Claim C9: create answers 400 (InvalidInput) if and only if one of `category`,
`name`, `price` is not a key of the payload, whatever the values (a payload whose three
keys hold any values at all, `null` or `0` included, is accepted with 201 and the new
id); an InvalidInput leaves the store as it was. -/
theorem postProduct_invalid_iff (products : Store) (newId : String) (body : JObj) :
    ((postProduct products newId body).2 = .sendStatus 400 ↔
      ¬ ("category" ∈ JObj.keys body ∧ "name" ∈ JObj.keys body ∧
        "price" ∈ JObj.keys body)) ∧
    ((postProduct products newId body).2 = .sendStatus 400 →
      (postProduct products newId body).1 = products) ∧
    (∀ c n v : JVal,
      (postProduct products newId [("category", c), ("name", n), ("price", v)]).2 =
        .json 201 [("id", .str newId)]) ∧
    (postProduct products newId [("category", .str "FOOD"), ("name", .str "Air"),
      ("price", .null)]).2 = .json 201 [("id", .str newId)] ∧
    (postProduct products newId [("category", .str "FOOD"), ("name", .str "Air"),
      ("price", .num (.fin 0))]).2 = .json 201 [("id", .str newId)] := by
  rw [← isValidProduct_iff]
  have hthree : ∀ c n v : JVal,
      (postProduct products newId [("category", c), ("name", n), ("price", v)]).2 =
        .json 201 [("id", .str newId)] := by
    intro c n v
    have hv : isValidProduct [("category", c), ("name", n), ("price", v)] = true := by
      rw [isValidProduct_iff]
      simp [JObj.keys]
    simp [postProduct, hv]
  refine ⟨?_, ?_, hthree, hthree _ _ _, hthree _ _ _⟩
  · by_cases hv : isValidProduct body = true
    · simp [postProduct, hv]
    · simp [postProduct, hv]
  · by_cases hv : isValidProduct body = true
    · simp [postProduct, hv]
    · simp [postProduct, hv]

/-- Claim C10: for every store and every payload that create accepts, reading the id
that create returned, without discount, answers with the payload plus the assigned id:
every property other than `id` is the payload's and `id` is the new id. -/
theorem postProduct_then_getProduct (h : Host) (products : Store) (newId : String)
    (body : JObj) (query : Query) (hvalid : isValidProduct body = true)
    (hq : query.discount = none) :
    (postProduct products newId body).2 = .json 201 [("id", .str newId)] ∧
    getProduct h (postProduct products newId body).1 newId query =
      .ok (.json 200 (JObj.set body "id" (.str newId))) ∧
    (∀ k, k ≠ "id" → JObj.get (JObj.set body "id" (.str newId)) k = JObj.get body k) ∧
    JObj.get (JObj.set body "id" (.str newId)) "id" = some (.str newId) := by
  have hpost : postProduct products newId body =
      (Store.set products newId (JObj.set body "id" (.str newId)),
        .json 201 [("id", .str newId)]) := by
    simp [postProduct, hvalid]
  refine ⟨by rw [hpost], ?_, ?_, ?_⟩
  · rw [hpost]
    simp [getProduct, Store.get_after_put, applyDiscount, hq]
  · intro k hk
    rw [JObj.get_after_set, if_neg hk]
  · rw [JObj.get_after_set]
    simp

/-- Creating rice in the apple store under the id `_1a2b` and reading it back. -/
theorem postProduct_then_getProduct_witness :
    (isValidProduct rice = true ∧ (pageQuery none none).discount = none) ∧
    ((postProduct appleStore "_1a2b" rice).2 = .json 201 [("id", .str "_1a2b")] ∧
    getProduct exampleHost (postProduct appleStore "_1a2b" rice).1 "_1a2b" (pageQuery none none) =
      .ok (.json 200 (JObj.set rice "id" (.str "_1a2b"))) ∧
    (∀ k, k ≠ "id" → JObj.get (JObj.set rice "id" (.str "_1a2b")) k = JObj.get rice k) ∧
    JObj.get (JObj.set rice "id" (.str "_1a2b")) "id" = some (.str "_1a2b")) :=
  ⟨⟨by decide, rfl⟩,
    postProduct_then_getProduct exampleHost appleStore "_1a2b" rice (pageQuery none none)
      (by decide) rfl⟩

/-! ## The store as a map -/

theorem JObj.set_same (o : JObj) (k : String) (v : JVal) (h : JObj.get o k = some v) :
    JObj.set o k v = o := by
  induction o with
  | nil => simp [JObj.get] at h
  | cons e rest ih =>
    obtain ⟨k0, v0⟩ := e
    by_cases h0 : k0 = k
    · simp only [JObj.get, if_pos h0] at h
      simp [JObj.set, h0, Option.some.inj h]
    · simp only [JObj.get, if_neg h0] at h
      simp [JObj.set, h0, ih h]

/-- An existing key splits the map at its entry, and `set` rewrites that entry in place. -/
theorem Store.split_of_get (s : Store) (id : String) (old : Product)
    (h : Store.get s id = some old) :
    ∃ before after, s = before ++ (id, old) :: after ∧ id ∉ Store.keys before ∧
      ∀ p, Store.set s id p = before ++ (id, p) :: after := by
  induction s with
  | nil => simp [Store.get] at h
  | cons e rest ih =>
    obtain ⟨k0, v0⟩ := e
    by_cases h0 : k0 = id
    · simp only [Store.get, if_pos h0] at h
      refine ⟨[], rest, ?_, by simp [Store.keys], ?_⟩
      · simp [h0, Option.some.inj h]
      · intro p
        simp [Store.set, h0]
    · simp only [Store.get, if_neg h0] at h
      obtain ⟨before, after, hs, hnot, hset⟩ := ih h
      refine ⟨(k0, v0) :: before, after, ?_, ?_, ?_⟩
      · simp [hs]
      · simp only [Store.keys, List.map_cons, List.mem_cons, not_or]
        exact ⟨fun e => h0 e.symm, hnot⟩
      · intro p
        simp [Store.set, h0, hset p]

theorem Store.set_of_not_has (s : Store) (id : String) (p : Product)
    (h : Store.has s id = false) : Store.set s id p = s ++ [(id, p)] := by
  induction s with
  | nil => rfl
  | cons e rest ih =>
    obtain ⟨k0, v0⟩ := e
    by_cases h0 : k0 = id
    · simp [Store.has, Store.get, h0] at h
    · have hrest : Store.has rest id = false := by
        simpa [Store.has, Store.get, h0] using h
      simp [Store.set, h0, ih hrest]

theorem Store.keys_set (s : Store) (id : String) (p : Product) :
    Store.keys (Store.set s id p) =
      if Store.has s id = true then Store.keys s else Store.keys s ++ [id] := by
  induction s with
  | nil => simp [Store.set, Store.keys, Store.has, Store.get]
  | cons e rest ih =>
    obtain ⟨k0, v0⟩ := e
    by_cases h0 : k0 = id
    · simp [Store.set, Store.keys, Store.has, Store.get, h0]
    · have hk : Store.keys (Store.set rest id p) =
          if Store.has rest id = true then Store.keys rest else Store.keys rest ++ [id] := ih
      have hhas : Store.has ((k0, v0) :: rest) id = Store.has rest id := by
        simp [Store.has, Store.get, h0]
      rw [hhas]
      simp only [Store.set, if_neg h0]
      show k0 :: Store.keys (Store.set rest id p) = _
      rw [hk]
      by_cases hr : Store.has rest id = true
      · simp [hr, Store.keys]
      · simp [hr, Store.keys]

theorem Store.put_same (s : Store) (id : String) (p : Product)
    (h : Store.get s id = some p) : Store.set s id p = s := by
  obtain ⟨before, after, hs, _, hset⟩ := Store.split_of_get s id p h
  rw [hset p, ← hs]

theorem Store.put_put (s : Store) (id : String) (p q : Product) :
    Store.set (Store.set s id p) id q = Store.set s id q := by
  induction s with
  | nil => simp [Store.set]
  | cons e rest ih =>
    obtain ⟨k0, v0⟩ := e
    by_cases h0 : k0 = id
    · simp [Store.set, h0]
    · simp [Store.set, h0, ih]

theorem Store.mem_of_get (s : Store) (id : String) (p : Product)
    (h : Store.get s id = some p) : (id, p) ∈ s := by
  obtain ⟨before, after, hs, _, _⟩ := Store.split_of_get s id p h
  rw [hs]
  simp

theorem Store.mem_set (s : Store) (id : String) (p : Product) (e : String × Product)
    (h : e ∈ Store.set s id p) : e = (id, p) ∨ e ∈ s := by
  induction s with
  | nil =>
    simp only [Store.set, List.mem_singleton] at h
    exact Or.inl h
  | cons e0 rest ih =>
    obtain ⟨k0, v0⟩ := e0
    by_cases h0 : k0 = id
    · simp only [Store.set, if_pos h0, List.mem_cons] at h
      rcases h with h | h
      · left; rw [h, h0]
      · right; exact List.mem_cons_of_mem _ h
    · simp only [Store.set, if_neg h0, List.mem_cons] at h
      rcases h with h | h
      · right; rw [h]; exact List.mem_cons_self _ _
      · rcases ih h with h1 | h1
        · exact Or.inl h1
        · exact Or.inr (List.mem_cons_of_mem _ h1)

theorem Store.get_delete_self (s : Store) (id : String) :
    Store.get (Store.delete s id) id = none := by
  induction s with
  | nil => rfl
  | cons e rest ih =>
    obtain ⟨k0, v0⟩ := e
    by_cases h0 : k0 = id
    · simpa [Store.delete, List.filter, h0] using ih
    · have : Store.delete ((k0, v0) :: rest) id = (k0, v0) :: Store.delete rest id := by
        simp [Store.delete, List.filter, h0]
      rw [this]
      simp [Store.get, h0, ih]

theorem Store.get_delete_other (s : Store) (id id1 : String) (h : id1 ≠ id) :
    Store.get (Store.delete s id) id1 = Store.get s id1 := by
  induction s with
  | nil => rfl
  | cons e rest ih =>
    obtain ⟨k0, v0⟩ := e
    by_cases h0 : k0 = id
    · have h1 : ¬ k0 = id1 := fun e => h (e.symm.trans h0)
      have : Store.delete ((k0, v0) :: rest) id = Store.delete rest id := by
        simp [Store.delete, List.filter, h0]
      rw [this, ih]
      simp [Store.get, h1]
    · have : Store.delete ((k0, v0) :: rest) id = (k0, v0) :: Store.delete rest id := by
        simp [Store.delete, List.filter, h0]
      rw [this]
      simp [Store.get, ih]

theorem Store.delete_of_not_mem (s : Store) (id : String) (h : id ∉ Store.keys s) :
    Store.delete s id = s := by
  unfold Store.delete
  rw [List.filter_eq_self]
  intro e he
  have : e.1 ≠ id := by
    intro heq
    apply h
    rw [← heq]
    exact List.mem_map_of_mem Prod.fst he
  simp [this]

/-! ## Delete -/

/-- Claim C11: for an existing id (a route parameter, hence not empty) in a map, whose
keys are distinct, delete answers 204 and removes exactly the entry of that id, the
entries before and after it staying as they are and in their order; afterwards a
single-item read and a second delete of the id are both answered 404, and every other
id reads as before.  Delete of an id that is not a key answers 404 and leaves the
store as it was. -/
theorem deleteProduct_removes (h : Host) (products : Store) (id : String) (query : Query)
    (hid : id ≠ "") (hkeys : (Store.keys products).Nodup) :
    (∀ p, Store.get products id = some p →
      (deleteProduct products id).2 = .sendStatus 204 ∧
      (∃ before after, products = before ++ (id, p) :: after ∧
        (deleteProduct products id).1 = before ++ after) ∧
      getProduct h (deleteProduct products id).1 id query = .ok (.sendStatus 404) ∧
      deleteProduct (deleteProduct products id).1 id =
        ((deleteProduct products id).1, .sendStatus 404) ∧
      (∀ id1, id1 ≠ id →
        Store.get (deleteProduct products id).1 id1 = Store.get products id1)) ∧
    (Store.has products id = false → deleteProduct products id = (products, .sendStatus 404)) := by
  constructor
  · intro p hp
    have hhas : Store.has products id = true := by simp [Store.has, hp]
    have hdel : deleteProduct products id = (Store.delete products id, .sendStatus 204) := by
      simp [deleteProduct, hid, hhas]
    rw [hdel]
    refine ⟨rfl, ?_, ?_, ?_, ?_⟩
    · obtain ⟨before, after, hs, hnot, _⟩ := Store.split_of_get products id p hp
      refine ⟨before, after, hs, ?_⟩
      have hnd : (Store.keys before ++ id :: Store.keys after).Nodup := by
        have := hkeys
        rw [hs] at this
        simpa [Store.keys] using this
      have hafter : id ∉ Store.keys after := by
        have h2 := (List.nodup_append.mp hnd).2.1
        exact (List.nodup_cons.mp h2).1
      show Store.delete products id = before ++ after
      rw [hs]
      unfold Store.delete
      rw [List.filter_append, List.filter_cons]
      have e1 := Store.delete_of_not_mem before id hnot
      have e2 := Store.delete_of_not_mem after id hafter
      unfold Store.delete at e1 e2
      rw [e1, e2]
      simp
    · simp [getProduct, Store.get_delete_self]
    · simp [deleteProduct, hid, Store.has, Store.get_delete_self]
    · intro id1 h1
      exact Store.get_delete_other products id id1 h1
  · intro hhas
    simp [deleteProduct, hid, hhas]

/-- Deleting the apple from the store that holds only it. -/
theorem deleteProduct_removes_witness :
    ("_jappko" ≠ "" ∧ (Store.keys appleStore).Nodup) ∧
    ((∀ p, Store.get appleStore "_jappko" = some p →
      (deleteProduct appleStore "_jappko").2 = .sendStatus 204 ∧
      (∃ before after, appleStore = before ++ ("_jappko", p) :: after ∧
        (deleteProduct appleStore "_jappko").1 = before ++ after) ∧
      getProduct exampleHost (deleteProduct appleStore "_jappko").1 "_jappko"
        (pageQuery none none) = .ok (.sendStatus 404) ∧
      deleteProduct (deleteProduct appleStore "_jappko").1 "_jappko" =
        ((deleteProduct appleStore "_jappko").1, .sendStatus 404) ∧
      (∀ id1, id1 ≠ "_jappko" →
        Store.get (deleteProduct appleStore "_jappko").1 id1 = Store.get appleStore id1)) ∧
    (Store.has appleStore "_jappko" = false →
      deleteProduct appleStore "_jappko" = (appleStore, .sendStatus 404))) :=
  ⟨⟨by decide, by decide⟩,
    deleteProduct_removes exampleHost appleStore "_jappko" (pageQuery none none)
      (by decide) (by decide)⟩

/-! ## The invariant of ids and keys -/

theorem _id_ne_empty (r : Nat) : _id r ≠ "" := by
  intro h
  have := congrArg String.data h
  simp [_id] at this

theorem StoreInv_set {s : Store} {id : String} {p : Product} (hs : StoreInv s)
    (hid : id ≠ "") (hp : JObj.get p "id" = some (.str id)) : StoreInv (Store.set s id p) := by
  intro e he
  rcases Store.mem_set s id p e he with h | h
  · rw [h]
    exact ⟨hid, hp⟩
  · exact hs e h

theorem get_id_set_id (o : JObj) (id : String) :
    JObj.get (JObj.set o "id" (.str id)) "id" = some (.str id) := by
  rw [JObj.get_after_set]
  simp

theorem StoreInv_run {s : Store} (hs : StoreInv s) (request : Request) :
    StoreInv (Request.run s request) := by
  cases request with
  | post r body =>
    by_cases hv : isValidProduct body = true
    · have : (postProduct s (_id r) body).1 =
          Store.set s (_id r) (JObj.set body "id" (.str (_id r))) := by
        simp [postProduct, hv]
      show StoreInv (postProduct s (_id r) body).1
      rw [this]
      exact StoreInv_set hs (_id_ne_empty r) (get_id_set_id _ _)
    · have : (postProduct s (_id r) body).1 = s := by simp [postProduct, hv]
      show StoreInv (postProduct s (_id r) body).1
      rw [this]
      exact hs
  | put id body =>
    show StoreInv (putProduct s id body).1
    unfold putProduct
    by_cases hid : id = ""
    · simp [hid]; exact hs
    · cases hget : Store.get s id with
      | none => simp [hid]; exact hs
      | some old =>
        by_cases hv : isValidProduct body = true
        · simp [hid, hv]
          exact StoreInv_set hs hid (get_id_set_id _ _)
        · simp [hid, hv]; exact hs
  | patch id body =>
    show StoreInv (patchProduct s id body).1
    unfold patchProduct
    by_cases hid : id = ""
    · simp [hid]; exact hs
    · cases hget : Store.get s id with
      | none => simp [hid]; exact hs
      | some old =>
        simp [hid]
        exact StoreInv_set hs hid (get_id_set_id _ _)
  | delete id =>
    show StoreInv (deleteProduct s id).1
    unfold deleteProduct
    by_cases hid : id = ""
    · simp [hid]; exact hs
    · by_cases hhas : Store.has s id = true
      · simp [hid, hhas]
        intro e he
        exact hs e (List.mem_of_mem_filter he)
      · simp [hid, hhas]; exact hs

theorem StoreInv_serve {s : Store} (hs : StoreInv s) (requests : List Request) :
    StoreInv (serve s requests) := by
  induction requests generalizing s with
  | nil => exact hs
  | cons request rest ih => exact ih (StoreInv_run hs request)

theorem StoreInv_ofEntries (entries : List (String × Product))
    (h : ∀ e ∈ entries, e.1 ≠ "" ∧ JObj.get e.2 "id" = some (.str e.1)) :
    StoreInv (Store.ofEntries entries) := by
  have gen : ∀ (es : List (String × Product)) (m : Store), StoreInv m →
      (∀ e ∈ es, e.1 ≠ "" ∧ JObj.get e.2 "id" = some (.str e.1)) →
      StoreInv (es.foldl (fun m e => Store.set m e.1 e.2) m) := by
    intro es
    induction es with
    | nil => intro m hm _; exact hm
    | cons e rest ih =>
      intro m hm hes
      have he := hes e (List.mem_cons_self _ _)
      exact ih _ (StoreInv_set hm he.1 he.2) (fun x hx => hes x (List.mem_cons_of_mem _ hx))
  exact gen entries [] (fun _ he => absurd he (List.not_mem_nil _)) h

theorem seedEntry_good (id : String) (category name price : JVal) (hid : id ≠ "") :
    (seedEntry id category name price).1 ≠ "" ∧
      JObj.get (seedEntry id category name price).2 "id" =
        some (.str (seedEntry id category name price).1) := by
  refine ⟨hid, ?_⟩
  simp [seedEntry, JObj.get]

theorem StoreInv_initialProducts (r1 r2 r3 r4 : Nat) (productsJson : List (Nat × JsonProduct)) :
    StoreInv (initialProducts r1 r2 r3 r4 productsJson) := by
  apply StoreInv_ofEntries
  intro e he
  simp only [seedEntries, List.mem_append, List.mem_cons, List.mem_singleton, List.mem_map,
    List.not_mem_nil, or_false] at he
  rcases he with (h | h | h | h | h) | ⟨x, _, h⟩
  · rw [h]; exact seedEntry_good _ _ _ _ (by decide)
  · rw [h]; exact seedEntry_good _ _ _ _ (_id_ne_empty r1)
  · rw [h]; exact seedEntry_good _ _ _ _ (_id_ne_empty r2)
  · rw [h]; exact seedEntry_good _ _ _ _ (_id_ne_empty r3)
  · rw [h]; exact seedEntry_good _ _ _ _ (_id_ne_empty r4)
  · rw [← h]; exact seedEntry_good _ _ _ _ (_id_ne_empty x.1)

/-- A discount rewrites `price` at most, so it keeps the `id` of a product. -/
theorem applyDiscount_keeps_id (h : Host) (query : Query) (discount : Product → Product)
    (hd : applyDiscount h query = .ok discount) (product : Product) :
    JObj.get (discount product) "id" = JObj.get product "id" := by
  unfold applyDiscount at hd
  split at hd
  · cases hd; rfl
  · cases hd
  · split at hd
    · split at hd
      · cases hd
        rw [JObj.get_after_set]
        simp
      · cases hd; rfl
    · cases hd; rfl

/-- Claim C12: in the initial store and after any sequence of create, replace, partial
update and delete requests, whatever their payloads, every product of the store has a
non-empty id equal to the key it is stored under; so the single-item read of an
existing id answers with a product whose `id` is the id asked for. -/
theorem serve_keeps_ids (h : Host) (r1 r2 r3 r4 : Nat)
    (productsJson : List (Nat × JsonProduct)) (requests : List Request) :
    StoreInv (initialProducts r1 r2 r3 r4 productsJson) ∧
    StoreInv (serve (initialProducts r1 r2 r3 r4 productsJson) requests) ∧
    (∀ id product query discount,
      Store.get (serve (initialProducts r1 r2 r3 r4 productsJson) requests) id = some product →
      applyDiscount h query = .ok discount →
      getProduct h (serve (initialProducts r1 r2 r3 r4 productsJson) requests) id query =
        .ok (.json 200 (discount product)) ∧
      JObj.get (discount product) "id" = some (.str id) ∧ id ≠ "") := by
  have hinit := StoreInv_initialProducts r1 r2 r3 r4 productsJson
  have hserve := StoreInv_serve hinit requests
  refine ⟨hinit, hserve, ?_⟩
  intro id product query discount hget hd
  have hmem := Store.mem_of_get _ id product hget
  have hinv := hserve (id, product) hmem
  refine ⟨?_, ?_, hinv.1⟩
  · simp [getProduct, hget, hd]
  · rw [applyDiscount_keeps_id h query discount hd]
    exact hinv.2

/-- A create whose payload carries its own `id`, then a partial update: the ids still
agree with the keys. -/
theorem serve_keeps_ids_witness :
    StoreInv (initialProducts 1 2 3 4 []) ∧
    StoreInv (serve (initialProducts 1 2 3 4 []) [.post 5 rice, .patch "_" [("id", .str "x")]]) ∧
    (∀ id product query discount,
      Store.get (serve (initialProducts 1 2 3 4 [])
        [.post 5 rice, .patch "_" [("id", .str "x")]]) id = some product →
      applyDiscount exampleHost query = .ok discount →
      getProduct exampleHost (serve (initialProducts 1 2 3 4 [])
        [.post 5 rice, .patch "_" [("id", .str "x")]]) id query =
        .ok (.json 200 (discount product)) ∧
      JObj.get (discount product) "id" = some (.str id) ∧ id ≠ "") :=
  serve_keeps_ids exampleHost 1 2 3 4 [] [.post 5 rice, .patch "_" [("id", .str "x")]]

/-! ## Positions in the store -/

/-- Claim C14: replace and partial update never change the sequence of ids of the
store, and on an existing id they rewrite its entry where it stands; a create that is
accepted and whose new id is not yet a key appends its entry after all the others. -/
theorem writes_keep_positions (products : Store) (id newId : String) (body : JObj) :
    Store.keys (putProduct products id body).1 = Store.keys products ∧
    Store.keys (patchProduct products id body).1 = Store.keys products ∧
    (∀ old, id ≠ "" → Store.get products id = some old →
      ∃ before after, products = before ++ (id, old) :: after ∧
        (isValidProduct body = true →
          (putProduct products id body).1 =
            before ++ (id, JObj.set body "id" (.str id)) :: after) ∧
        ∃ updated, (patchProduct products id body).2 = .json 201 updated ∧
          (patchProduct products id body).1 = before ++ (id, updated) :: after) ∧
    (Store.has products newId = false → isValidProduct body = true →
      (postProduct products newId body).1 =
        products ++ [(newId, JObj.set body "id" (.str newId))] ∧
      Store.keys (postProduct products newId body).1 = Store.keys products ++ [newId]) := by
  refine ⟨?_, ?_, ?_, ?_⟩
  · unfold putProduct
    by_cases hid : id = ""
    · simp [hid]
    · cases hget : Store.get products id with
      | none => simp [hid]
      | some old =>
        by_cases hv : isValidProduct body = true
        · simp [hid, hv, Store.keys_set, Store.has, hget]
        · simp [hid, hv]
  · unfold patchProduct
    by_cases hid : id = ""
    · simp [hid]
    · cases hget : Store.get products id with
      | none => simp [hid]
      | some old => simp [hid, Store.keys_set, Store.has, hget]
  · intro old hid hget
    obtain ⟨before, after, hs, _, hset⟩ := Store.split_of_get products id old hget
    refine ⟨before, after, hs, ?_, ?_⟩
    · intro hv
      simp [putProduct, hid, hget, hv, hset]
    · refine ⟨JObj.set (JObj.assign old (truthyField body "category" ++
        truthyField body "name" ++ truthyField body "price")) "id" (.str id), ?_, ?_⟩
      · simp only [patchProduct, if_neg hid, hget]
      · simp only [patchProduct, if_neg hid, hget, hset]
  · intro hhas hv
    have hpost : (postProduct products newId body).1 =
        products ++ [(newId, JObj.set body "id" (.str newId))] := by
      simp [postProduct, hv, Store.set_of_not_has _ _ _ hhas]
    refine ⟨hpost, ?_⟩
    rw [hpost]
    simp [Store.keys]

/-- Replacing and patching the apple in a store of two, and creating a third product. -/
theorem writes_keep_positions_witness :
    Store.keys (putProduct (appleStore ++ [("_1a2b", rice)]) "_jappko" rice).1 =
      Store.keys (appleStore ++ [("_1a2b", rice)]) ∧
    Store.keys (patchProduct (appleStore ++ [("_1a2b", rice)]) "_jappko" rice).1 =
      Store.keys (appleStore ++ [("_1a2b", rice)]) ∧
    (postProduct (appleStore ++ [("_1a2b", rice)]) "_c3d4" rice).1 =
      (appleStore ++ [("_1a2b", rice)]) ++ [("_c3d4", JObj.set rice "id" (.str "_c3d4"))] ∧
    Store.keys (postProduct (appleStore ++ [("_1a2b", rice)]) "_c3d4" rice).1 =
      Store.keys (appleStore ++ [("_1a2b", rice)]) ++ ["_c3d4"] :=
  ⟨(writes_keep_positions (appleStore ++ [("_1a2b", rice)]) "_jappko" "_c3d4" rice).1,
    (writes_keep_positions (appleStore ++ [("_1a2b", rice)]) "_jappko" "_c3d4" rice).2.1,
    (writes_keep_positions (appleStore ++ [("_1a2b", rice)]) "_jappko" "_c3d4" rice).2.2.2
      (by decide) (by decide)⟩

/-! ## Freshness of created ids -/

/-- Counterexample to claim C18 as stated: `_id` drops the first two hexadecimal digits,
so the integers 5 and 200 both give the id `_`.  After a first create with that id, a
second create is accepted although the id is already a key; the store keeps its two
entries and the product created first is replaced by the second. -/
theorem postProduct_id_collision :
    _id 5 = "_" ∧ _id 200 = "_" ∧
    Store.has (postProduct appleStore (_id 5) rice).1 (_id 200) = true ∧
    (postProduct (postProduct appleStore (_id 5) rice).1 (_id 200) apple).2 =
      .json 201 [("id", .str "_")] ∧
    (postProduct (postProduct appleStore (_id 5) rice).1 (_id 200) apple).1.length =
      (postProduct appleStore (_id 5) rice).1.length ∧
    Store.get (postProduct appleStore (_id 5) rice).1 "_" =
      some (JObj.set rice "id" (.str "_")) ∧
    Store.get (postProduct (postProduct appleStore (_id 5) rice).1 (_id 200) apple).1 "_" =
      some (JObj.set apple "id" (.str "_")) := by
  refine ⟨by decide, by decide, by decide, rfl, by decide, rfl, rfl⟩

/-- Claim C18, amended: for every store and every payload with all required fields, if
the id that `_id()` produced is not a key of the store before the call, create adds
exactly one entry, after the others, and changes no existing product.  Nothing in
create checks that the id is new. -/
theorem postProduct_fresh_appends (products : Store) (newId : String) (body : JObj)
    (hvalid : isValidProduct body = true) (hfresh : Store.has products newId = false) :
    (postProduct products newId body).2 = .json 201 [("id", .str newId)] ∧
    (postProduct products newId body).1 =
      products ++ [(newId, JObj.set body "id" (.str newId))] ∧
    (postProduct products newId body).1.length = products.length + 1 ∧
    (∀ id, id ≠ newId →
      Store.get (postProduct products newId body).1 id = Store.get products id) := by
  have hpost : postProduct products newId body =
      (Store.set products newId (JObj.set body "id" (.str newId)),
        .json 201 [("id", .str newId)]) := by
    simp [postProduct, hvalid]
  rw [hpost]
  refine ⟨rfl, Store.set_of_not_has _ _ _ hfresh, ?_, ?_⟩
  · show (Store.set products newId (JObj.set body "id" (.str newId))).length = _
    rw [Store.set_of_not_has _ _ _ hfresh]
    simp
  · intro id hid
    show Store.get (Store.set products newId (JObj.set body "id" (.str newId))) id = _
    rw [Store.get_after_put, if_neg hid]

/-- Creating rice in the apple store under the new id `_1a2b`. -/
theorem postProduct_fresh_appends_witness :
    (isValidProduct rice = true ∧ Store.has appleStore "_1a2b" = false) ∧
    ((postProduct appleStore "_1a2b" rice).2 = .json 201 [("id", .str "_1a2b")] ∧
    (postProduct appleStore "_1a2b" rice).1 =
      appleStore ++ [("_1a2b", JObj.set rice "id" (.str "_1a2b"))] ∧
    (postProduct appleStore "_1a2b" rice).1.length = appleStore.length + 1 ∧
    (∀ id, id ≠ "_1a2b" →
      Store.get (postProduct appleStore "_1a2b" rice).1 id = Store.get appleStore id)) :=
  ⟨⟨by decide, by decide⟩,
    postProduct_fresh_appends appleStore "_1a2b" rice (by decide) (by decide)⟩

/-! ## Idempotence of the updates -/

theorem JObj.assign_noop (o src : JObj) (h : ∀ e ∈ src, JObj.get o e.1 = some e.2) :
    JObj.assign o src = o := by
  unfold JObj.assign
  induction src with
  | nil => rfl
  | cons e rest ih =>
    have he := h e (List.mem_cons_self _ _)
    rw [List.foldl_cons, JObj.set_same o e.1 e.2 he]
    exact ih (fun x hx => h x (List.mem_cons_of_mem _ hx))

theorem mem_truthyField {body : JObj} {field : String} {e : String × JVal}
    (h : e ∈ truthyField body field) :
    e.1 = field ∧ JObj.get body field = some e.2 ∧ e.2.truthy = true := by
  unfold truthyField at h
  cases hb : JObj.get body field with
  | none => simp [hb] at h
  | some v =>
    by_cases hv : v.truthy = true
    · simp [hb, hv] at h
      rw [h]
      exact ⟨rfl, rfl, hv⟩
    · simp [hb, hv] at h

theorem mem_truthyFields {body : JObj} {e : String × JVal}
    (h : e ∈ truthyField body "category" ++ truthyField body "name" ++
      truthyField body "price") :
    e.1 ∈ requiredProductFields ∧ JObj.get body e.1 = some e.2 ∧ e.2.truthy = true := by
  simp only [List.mem_append] at h
  rcases h with (h | h) | h
  · obtain ⟨h1, h2, h3⟩ := mem_truthyField h
    rw [h1]
    exact ⟨by decide, h2, h3⟩
  · obtain ⟨h1, h2, h3⟩ := mem_truthyField h
    rw [h1]
    exact ⟨by decide, h2, h3⟩
  · obtain ⟨h1, h2, h3⟩ := mem_truthyField h
    rw [h1]
    exact ⟨by decide, h2, h3⟩

/-- Merging the same payload into an already merged record changes nothing. -/
theorem merge_twice (old body : JObj) (id : String) :
    JObj.set (JObj.assign (JObj.set (JObj.assign old (truthyField body "category" ++
        truthyField body "name" ++ truthyField body "price")) "id" (.str id))
      (truthyField body "category" ++ truthyField body "name" ++ truthyField body "price"))
      "id" (.str id) =
    JObj.set (JObj.assign old (truthyField body "category" ++ truthyField body "name" ++
      truthyField body "price")) "id" (.str id) := by
  have hnoop : JObj.assign (JObj.set (JObj.assign old (truthyField body "category" ++
        truthyField body "name" ++ truthyField body "price")) "id" (.str id))
      (truthyField body "category" ++ truthyField body "name" ++ truthyField body "price") =
      JObj.set (JObj.assign old (truthyField body "category" ++ truthyField body "name" ++
        truthyField body "price")) "id" (.str id) := by
    apply JObj.assign_noop
    intro e he
    obtain ⟨h1, h2, h3⟩ := mem_truthyFields he
    have hne : e.1 ≠ "id" := by
      intro heq
      rw [heq] at h1
      revert h1
      decide
    rw [JObj.get_after_set, if_neg hne, get_assign_truthyFields]
    have ht : truthy? (JObj.get body e.1) = true := by rw [h2]; exact h3
    rw [if_pos ⟨h1, ht⟩, h2]
  rw [hnoop]
  exact JObj.set_same _ _ _ (get_id_set_id _ _)

theorem truthyField_of_falsy {body : JObj} {field : String}
    (h : truthy? (JObj.get body field) = false) : truthyField body field = [] := by
  unfold truthyField
  cases hb : JObj.get body field with
  | none => rfl
  | some v =>
    rw [hb] at h
    have hv : v.truthy = false := h
    simp [hv]

/-- Claim C20: applying the same partial update twice in succession, and likewise the
same replace, leaves the store and the answer as after the first application; and on
an existing id whose record carries that id, a partial update whose payload has no
truthy `category`, `name` or `price` leaves the store exactly as it was. -/
theorem updates_idempotent (products : Store) (id : String) (body : JObj) :
    patchProduct (patchProduct products id body).1 id body = patchProduct products id body ∧
    putProduct (putProduct products id body).1 id body = putProduct products id body ∧
    (∀ old, id ≠ "" → Store.get products id = some old →
      JObj.get old "id" = some (.str id) →
      (∀ field ∈ requiredProductFields, truthy? (JObj.get body field) = false) →
      (patchProduct products id body).1 = products ∧
        (patchProduct products id body).2 = .json 201 old) := by
  refine ⟨?_, ?_, ?_⟩
  · by_cases hid : id = ""
    · simp [patchProduct, hid]
    · cases hget : Store.get products id with
      | none => simp [patchProduct, hid, hget]
      | some old =>
        have h1 : patchProduct products id body =
            (Store.set products id (JObj.set (JObj.assign old (truthyField body "category" ++
                truthyField body "name" ++ truthyField body "price")) "id" (.str id)),
              .json 201 (JObj.set (JObj.assign old (truthyField body "category" ++
                truthyField body "name" ++ truthyField body "price")) "id" (.str id))) := by
          simp [patchProduct, hid, hget]
        rw [h1]
        simp only [patchProduct, if_neg hid, Store.get_after_put, if_true]
        rw [merge_twice, Store.put_put]
  · by_cases hid : id = ""
    · simp [putProduct, hid]
    · cases hget : Store.get products id with
      | none => simp [putProduct, hid, hget]
      | some old =>
        by_cases hv : isValidProduct body = true
        · have h1 : putProduct products id body =
              (Store.set products id (JObj.set body "id" (.str id)),
                .json 201 (JObj.set body "id" (.str id))) := by
            simp [putProduct, hid, hget, hv]
          rw [h1]
          simp [putProduct, hid, hv, Store.get_after_put, Store.put_put]
        · simp [putProduct, hid, hget, hv]
  · intro old hid hget hidfield hfalsy
    have hc := truthyField_of_falsy (hfalsy "category" (by decide))
    have hn := truthyField_of_falsy (hfalsy "name" (by decide))
    have hp := truthyField_of_falsy (hfalsy "price" (by decide))
    have hrec : JObj.set (JObj.assign old (truthyField body "category" ++
        truthyField body "name" ++ truthyField body "price")) "id" (.str id) = old := by
      rw [hc, hn, hp]
      show JObj.set old "id" (.str id) = old
      exact JObj.set_same old "id" _ hidfield
    simp only [patchProduct, if_neg hid, hget, hrec]
    exact ⟨Store.put_same products id old hget, trivial⟩

/-- Patching the apple twice with `{price: 4.20}`, replacing it twice by rice, and
patching it with the empty payload. -/
theorem updates_idempotent_witness :
    patchProduct (patchProduct appleStore "_jappko" [("price", .num (.fin (21 / 5)))]).1
        "_jappko" [("price", .num (.fin (21 / 5)))] =
      patchProduct appleStore "_jappko" [("price", .num (.fin (21 / 5)))] ∧
    putProduct (putProduct appleStore "_jappko" rice).1 "_jappko" rice =
      putProduct appleStore "_jappko" rice ∧
    (patchProduct appleStore "_jappko" []).1 = appleStore ∧
    (patchProduct appleStore "_jappko" []).2 = .json 201 apple :=
  ⟨(updates_idempotent appleStore "_jappko" [("price", .num (.fin (21 / 5)))]).1,
    (updates_idempotent appleStore "_jappko" rice).2.1,
    (updates_idempotent appleStore "_jappko" []).2.2 apple (by decide) rfl rfl
      (by intro field _; rfl)⟩

/-! ## Order of the results -/

theorem slice_infix {α : Type} (arr : List α) (start end_ : JSInt) :
    slice arr start end_ <:+: arr := by
  unfold slice
  exact List.IsInfix.trans (List.take_prefix _ _).isInfix (List.drop_suffix _ _).isInfix

theorem paginate_results_infix {α : Type} (arr : List α) (query : Query) :
    (paginate arr query).results <:+: arr := by
  unfold paginate
  simp only
  split
  · exact ⟨[], arr, by simp [fallback]⟩
  · exact slice_infix arr _ _

theorem map_productId_discount (h : Host) (query : Query) (discount : Product → Product)
    (hd : applyDiscount h query = .ok discount) (ps : List Product) :
    (ps.map discount).map productId = ps.map productId := by
  rw [List.map_map]
  apply List.map_congr_left
  intro product _
  exact applyDiscount_keeps_id h query discount hd product

/-- Claim C13: when the filter and the discount are evaluated without error, the
results of a collection read are a contiguous run of the products that the filter
keeps, taken in the iteration order of the store and discounted; so are their ids.
With no category filter, page 1 and a limit that is at least the size of the store,
the results are all the products of the store in its order. -/
theorem getProducts_keeps_order (h : Host) (products : Store) (query : Query)
    (keep : Product → Bool) (discount : Product → Product)
    (hk : filterByCategory h query = .ok keep) (hd : applyDiscount h query = .ok discount) :
    getProducts h products query = .ok (.json 200
      (paginate (((Store.values products).filter keep).map discount) query)) ∧
    ((Store.values products).filter keep).Sublist (Store.values products) ∧
    (paginate (((Store.values products).filter keep).map discount) query).results <:+:
      ((Store.values products).filter keep).map discount ∧
    (paginate (((Store.values products).filter keep).map discount) query).results.map productId
      <:+: ((Store.values products).filter keep).map productId ∧
    (∀ l : Int, query.category = none → products.length < 2 ^ 32 →
      parseInt (orDefault query.limit "10") = .fin l →
      parseInt (orDefault query.page "1") = .fin 1 → (products.length : Int) ≤ l → 0 < l →
      (paginate (((Store.values products).filter keep).map discount) query).results =
        (Store.values products).map discount ∧
      (paginate (((Store.values products).filter keep).map discount) query).results.map
        productId = (Store.values products).map productId) := by
  have hinfix := paginate_results_infix
    (((Store.values products).filter keep).map discount) query
  refine ⟨?_, List.filter_sublist _, hinfix, ?_, ?_⟩
  · simp [getProducts, requestedProducts, hk, hd]
  · have := List.IsInfix.map productId hinfix
    rw [map_productId_discount h query discount hd] at this
    exact this
  · intro l hcat hlen hl hp hle hl0
    have hkeep : keep = fun _ => true := by
      unfold filterByCategory at hk
      rw [hcat] at hk
      cases hk
      rfl
    have hall : (Store.values products).filter keep = Store.values products := by
      rw [hkeep]
      simp
    have hlen2 : (((Store.values products).filter keep).map discount).length < 2 ^ 32 := by
      rw [hall]
      simpa [Store.values] using hlen
    have hres := paginate_results_eq (((Store.values products).filter keep).map discount)
      query 1 l hlen2 hl hp hl0 (by decide)
    have hwhole : (paginate (((Store.values products).filter keep).map discount) query).results =
        (Store.values products).map discount := by
      rw [hres, hall]
      simp only [sub_self, zero_mul, Int.toNat_zero, List.drop_zero]
      apply List.take_of_length_le
      simp only [List.length_map, Store.values]
      omega
    refine ⟨hwhole, ?_⟩
    rw [hwhole, map_productId_discount h query discount hd]

/-- With no query, the store of the apple and the rice is listed whole and in order. -/
theorem getProducts_keeps_order_witness :
    (filterByCategory exampleHost (pageQuery none none) = .ok (fun _ => true) ∧
      applyDiscount exampleHost (pageQuery none none) = .ok (fun product => product)) ∧
    (paginate (((Store.values (appleStore ++ [("_1a2b", rice)])).filter (fun _ => true)).map
        (fun product => product)) (pageQuery none none)).results =
      (Store.values (appleStore ++ [("_1a2b", rice)])).map (fun product => product) :=
  ⟨⟨rfl, rfl⟩,
    ((getProducts_keeps_order exampleHost (appleStore ++ [("_1a2b", rice)]) (pageQuery none none)
      (fun _ => true) (fun product => product) rfl rfl).2.2.2.2 10 rfl (by decide) (by decide)
      (by decide) (by decide) (by decide)).1⟩

/-! ## Pages as a partition -/

theorem flatMap_take_drop {α : Type} (arr : List α) (l n : Nat) :
    (List.range n).flatMap (fun i => (arr.drop (i * l)).take l) = arr.take (n * l) := by
  induction n with
  | zero => simp
  | succ k ih =>
    rw [List.range_succ, List.flatMap_append, ih, List.flatMap_singleton, Nat.succ_mul,
      List.take_add]

theorem lastPage_bounds (T l : Nat) (hl : 0 < l) :
    1 ≤ lastPage T l ∧ T ≤ lastPage T l * l ∧ (0 < T → (lastPage T l - 1) * l < T) := by
  have h1 : (T + l - 1) / l * l ≤ T + l - 1 := Nat.div_mul_le_self _ _
  have h2 : T + l - 1 < (T + l - 1) / l * l + l := Nat.lt_div_mul_add hl
  unfold lastPage
  rcases Nat.lt_or_ge ((T + l - 1) / l) 1 with hc | hc
  · have hc0 : (T + l - 1) / l = 0 := Nat.lt_one_iff.mp hc
    rw [hc0] at h2 ⊢
    refine ⟨by simp, by simp; omega, ?_⟩
    intro hT
    simp
    exact hT
  · rw [Nat.max_eq_right hc]
    refine ⟨hc, by omega, ?_⟩
    intro hT
    have h3 : ((T + l - 1) / l - 1) * l = (T + l - 1) / l * l - l := by
      rw [Nat.sub_mul, Nat.one_mul]
    rw [h3]
    omega

/-- Results and `next` of a valid page, for natural numbers. -/
theorem paginate_page {α : Type} (arr : List α) (query : Query) (p l : Nat)
    (hlen : arr.length < 2 ^ 32)
    (hl : parseInt (orDefault query.limit "10") = .fin (l : Int))
    (hp : parseInt (orDefault query.page "1") = .fin (p : Int)) (hl0 : 0 < l) (hp0 : 0 < p) :
    (paginate arr query).results = (arr.drop ((p - 1) * l)).take l ∧
    (paginate arr query).next =
      if l * p < arr.length then some (.fin ((p : Int) + 1)) else none := by
  have hres := paginate_results_eq arr query p l hlen hl hp (by omega) (by omega)
  have hnext := paginate_next_eq arr query p l hlen hl hp (by omega) (by omega)
  constructor
  · rw [hres]
    have e1 : (((p : Int) - 1) * (l : Int)).toNat = (p - 1) * l := by
      have : ((p : Int) - 1) * (l : Int) = (((p - 1) * l : Nat) : Int) := by
        push_cast [Nat.cast_sub hp0]
        ring
      rw [this, Int.toNat_natCast]
    rw [e1, Int.toNat_natCast]
  · rw [hnext]
    have e2 : ((l : Int) * (p : Int) < (arr.length : Int)) ↔ l * p < arr.length := by
      exact_mod_cast Iff.rfl
    by_cases hc : l * p < arr.length
    · rw [if_pos hc, if_pos (e2.mpr hc)]
    · rw [if_neg hc, if_neg (fun x => hc (e2.mp x))]

/-- Claim C19: for a list of length `T < 2^32`, a limit `l >= 1` and `n = max(1,
ceil(T/l))`, the results of the pages `1 .. n` concatenated in order are the list;
every page before `n` has exactly `l` results and `next = page + 1`; page `n` has
`next = null` and, for a non-empty list, some result; every page beyond `n` has no
result and `next = null`. -/
theorem paginate_pages_partition {α : Type} (arr : List α) (l : Nat) (pages : Nat → Query)
    (hlen : arr.length < 2 ^ 32) (hl0 : 0 < l)
    (hpages : ∀ p, 1 ≤ p → p ≤ lastPage arr.length l →
      parseInt (orDefault (pages p).limit "10") = .fin (l : Int) ∧
      parseInt (orDefault (pages p).page "1") = .fin (p : Int)) :
    (List.range (lastPage arr.length l)).flatMap
      (fun i => (paginate arr (pages (i + 1))).results) = arr ∧
    (∀ p, 1 ≤ p → p < lastPage arr.length l →
      (paginate arr (pages p)).results.length = l ∧
      (paginate arr (pages p)).next = some (.fin ((p : Int) + 1))) ∧
    (paginate arr (pages (lastPage arr.length l))).next = none ∧
    (arr ≠ [] → (paginate arr (pages (lastPage arr.length l))).results ≠ []) ∧
    (∀ (query : Query) (p : Nat), lastPage arr.length l < p →
      parseInt (orDefault query.limit "10") = .fin (l : Int) →
      parseInt (orDefault query.page "1") = .fin (p : Int) →
      (paginate arr query).results = [] ∧ (paginate arr query).next = none) := by
  obtain ⟨hn1, hnT, hnlast⟩ := lastPage_bounds arr.length l hl0
  have hpage : ∀ p, 1 ≤ p → p ≤ lastPage arr.length l →
      (paginate arr (pages p)).results = (arr.drop ((p - 1) * l)).take l ∧
      (paginate arr (pages p)).next =
        if l * p < arr.length then some (.fin ((p : Int) + 1)) else none := by
    intro p h1 h2
    obtain ⟨ha, hb⟩ := hpages p h1 h2
    exact paginate_page arr (pages p) p l hlen ha hb hl0 h1
  refine ⟨?_, ?_, ?_, ?_, ?_⟩
  · have hmap : (List.range (lastPage arr.length l)).flatMap
        (fun i => (paginate arr (pages (i + 1))).results) =
        (List.range (lastPage arr.length l)).flatMap (fun i => (arr.drop (i * l)).take l) := by
      apply List.flatMap_congr
      intro i hi
      have hi2 := List.mem_range.mp hi
      rw [(hpage (i + 1) (by omega) (by omega)).1]
      simp
    rw [hmap, flatMap_take_drop]
    exact List.take_of_length_le hnT
  · intro p h1 h2
    obtain ⟨hr, hnx⟩ := hpage p h1 (by omega)
    have hmul : p * l ≤ (lastPage arr.length l - 1) * l :=
      Nat.mul_le_mul_right l (by omega)
    have hT : 0 < arr.length := by
      rcases Nat.eq_zero_or_pos arr.length with h0 | h0
      · exfalso
        have : lastPage arr.length l = 1 := by
          rw [h0]
          unfold lastPage
          have : (0 + l - 1) / l = 0 := by
            rw [Nat.zero_add]
            exact Nat.div_eq_of_lt (by omega)
          rw [this]
          rfl
        omega
      · exact h0
    have hlt : p * l < arr.length := lt_of_le_of_lt hmul (hnlast hT)
    constructor
    · rw [hr, List.length_take, List.length_drop]
      have : (p - 1) * l + l = p * l := by
        rw [Nat.sub_mul, Nat.one_mul]
        have : l ≤ p * l := Nat.le_mul_of_pos_left l (by omega)
        omega
      omega
    · rw [hnx, if_pos (by rw [Nat.mul_comm]; exact hlt)]
  · obtain ⟨_, hnx⟩ := hpage (lastPage arr.length l) hn1 (le_refl _)
    rw [hnx, if_neg (by rw [Nat.mul_comm]; omega)]
  · intro hne
    obtain ⟨hr, _⟩ := hpage (lastPage arr.length l) hn1 (le_refl _)
    have hT : 0 < arr.length := List.length_pos.mpr hne
    have hlt := hnlast hT
    intro hnil
    have hlen0 : ((arr.drop ((lastPage arr.length l - 1) * l)).take l).length = 0 := by
      rw [← hr, hnil]
      rfl
    rw [List.length_take, List.length_drop] at hlen0
    omega
  · intro query p hp hl hpg
    obtain ⟨hr, hnx⟩ := paginate_page arr query p l hlen hl hpg hl0 (by omega)
    have hmul : lastPage arr.length l * l ≤ (p - 1) * l :=
      Nat.mul_le_mul_right l (by omega)
    have hmul2 : (p - 1) * l ≤ l * p := by
      rw [Nat.mul_comm l p]
      exact Nat.mul_le_mul_right l (by omega)
    constructor
    · rw [hr, List.drop_eq_nil_of_le (by omega)]
      simp
    · rw [hnx, if_neg (by omega)]

/-- Twenty-five items by ten: the pages 1, 2 and 3 give back the list, pages 1 and 2
are full, page 3 is the last. -/
theorem paginate_pages_partition_witness :
    (sampleItems.length < 2 ^ 32 ∧ lastPage sampleItems.length 10 = 3) ∧
    (List.range (lastPage sampleItems.length 10)).flatMap
      (fun i => (paginate sampleItems (tenPerPage (i + 1))).results) = sampleItems ∧
    (∀ p, 1 ≤ p → p < lastPage sampleItems.length 10 →
      (paginate sampleItems (tenPerPage p)).results.length = 10 ∧
      (paginate sampleItems (tenPerPage p)).next = some (.fin ((p : Int) + 1))) ∧
    (paginate sampleItems (tenPerPage (lastPage sampleItems.length 10))).next = none :=
  have hpages : ∀ p, 1 ≤ p → p ≤ lastPage sampleItems.length 10 →
      parseInt (orDefault (tenPerPage p).limit "10") = .fin ((10 : Nat) : Int) ∧
      parseInt (orDefault (tenPerPage p).page "1") = .fin (p : Int) := by
    intro p h1 h2
    have h3 : lastPage sampleItems.length 10 = 3 := by decide
    rw [h3] at h2
    interval_cases p
    · exact ⟨by decide, by decide⟩
    · exact ⟨by decide, by decide⟩
    · exact ⟨by decide, by decide⟩
  ⟨⟨by decide, by decide⟩,
    (paginate_pages_partition sampleItems 10 tenPerPage (by decide) (by decide) hpages).1,
    (paginate_pages_partition sampleItems 10 tenPerPage (by decide) (by decide) hpages).2.1,
    (paginate_pages_partition sampleItems 10 tenPerPage (by decide) (by decide) hpages).2.2.1⟩

/-! ## Rounding rationals to doubles -/

theorem roundHalfEven_eq {x : ℚ} {m : ℤ} (h1 : (m : ℚ) - 1 / 2 < x) (h2 : x < m + 1 / 2) :
    roundHalfEven x = m := by
  have hf1 : (⌊x⌋ : ℚ) ≤ x := Int.floor_le x
  have hf2 : x < ⌊x⌋ + 1 := Int.lt_floor_add_one x
  unfold roundHalfEven
  by_cases ha : x - ⌊x⌋ < 1 / 2
  · rw [if_pos ha]
    have h3 : ((⌊x⌋ - m : ℤ) : ℚ) < 1 := by push_cast; linarith
    have h4 : (-1 : ℚ) < ((⌊x⌋ - m : ℤ) : ℚ) := by push_cast; linarith
    have h5 : ⌊x⌋ - m < 1 := by exact_mod_cast h3
    have h6 : -1 < ⌊x⌋ - m := by exact_mod_cast h4
    omega
  · rw [if_neg ha]
    have hb : 1 / 2 < x - ⌊x⌋ ∨ x - ⌊x⌋ = 1 / 2 := by
      rcases lt_or_eq_of_le (not_lt.mp ha) with h | h
      · exact Or.inl h
      · exact Or.inr h.symm
    have h3 : ((⌊x⌋ + 1 - m : ℤ) : ℚ) < 1 := by push_cast; linarith
    have h4 : (-1 : ℚ) < ((⌊x⌋ + 1 - m : ℤ) : ℚ) := by
      push_cast
      rcases hb with h | h <;> linarith
    have h5 : ⌊x⌋ + 1 - m < 1 := by exact_mod_cast h3
    have h6 : -1 < ⌊x⌋ + 1 - m := by exact_mod_cast h4
    have hm : ⌊x⌋ + 1 = m := by omega
    rcases hb with h | h
    · rw [if_pos h, hm]
    · exfalso
      have : x = (m : ℚ) - 1 / 2 := by
        have : ((⌊x⌋ + 1 : ℤ) : ℚ) = m := by exact_mod_cast hm
        push_cast at this
        linarith
      linarith

theorem roundHalfEven_nonneg {x : ℚ} (hx : 0 ≤ x) : 0 ≤ roundHalfEven x := by
  have hf : 0 ≤ ⌊x⌋ := Int.floor_nonneg.mpr hx
  unfold roundHalfEven
  split
  · exact hf
  · split
    · omega
    · split
      · exact hf
      · omega

theorem ulpExponent_eq {a : ℚ} {e : ℤ} (ha : 0 < a) (he : -1074 ≤ e)
    (hlo : (2 : ℚ) ^ (e + 52) ≤ a) (hhi : a < (2 : ℚ) ^ (e + 53)) : ulpExponent a = e := by
  have h1 : e + 52 ≤ Int.log 2 a := by
    apply (Int.zpow_le_iff_le_log (by norm_num) ha).mp
    simpa using hlo
  have h2 : Int.log 2 a < e + 53 := by
    apply (Int.lt_zpow_iff_log_lt (by norm_num) ha).mp
    simpa using hhi
  unfold ulpExponent
  omega

set_option exponentiation.threshold 2000 in
theorem overflowBound_cast : ((overflowBound : ℕ) : ℚ) = (2 : ℚ) ^ (1024 : ℤ) := by
  rw [overflowBound_eq, Nat.cast_pow, Nat.cast_ofNat]
  exact (zpow_natCast (2 : ℚ) 1024).symm

theorem below_overflowBound {m e : ℤ} (hm : (m : ℚ) ≤ 2 ^ (53 : ℤ)) (he : e ≤ 970) :
    (m : ℚ) * 2 ^ e < (2 : ℚ) ^ (1024 : ℤ) := by
  have h2 : (0 : ℚ) < (2 : ℚ) ^ e := zpow_pos (by norm_num) e
  calc (m : ℚ) * 2 ^ e ≤ 2 ^ (53 : ℤ) * 2 ^ e := mul_le_mul_of_nonneg_right hm (le_of_lt h2)
    _ = 2 ^ (53 + e) := by rw [zpow_add₀ (by norm_num)]
    _ < 2 ^ (1024 : ℤ) := zpow_lt_zpow_right₀ (by norm_num) (by omega)

/-- The double nearest to a positive magnitude in the range of the normal doubles, from
the exponent `e` of its unit in the last place and the nearest multiple `m` of it. -/
theorem roundMagnitude_eq {a : ℚ} {e m : ℤ} (ha : 0 < a) (he : -1074 ≤ e) (he2 : e ≤ 970)
    (hlo : (2 : ℚ) ^ (e + 52) ≤ a) (hhi : a < (2 : ℚ) ^ (e + 53))
    (h1 : (m : ℚ) - 1 / 2 < a / 2 ^ e) (h2 : a / 2 ^ e < m + 1 / 2)
    (hm2 : (m : ℚ) ≤ 2 ^ (53 : ℤ)) : roundMagnitude a = some ((m : ℚ) * 2 ^ e) := by
  unfold roundMagnitude
  rw [ulpExponent_eq ha he hlo hhi, roundHalfEven_eq h1 h2, overflowBound_cast,
    if_pos (below_overflowBound hm2 he2)]

theorem roundMagnitude_zero : roundMagnitude 0 = some 0 := by
  have h0 : roundHalfEven ((0 : ℚ) / 2 ^ ulpExponent 0) = 0 := by
    rw [zero_div]
    exact roundHalfEven_eq (by norm_num) (by norm_num)
  unfold roundMagnitude
  rw [h0, overflowBound_cast]
  simp only [Int.cast_zero, zero_mul]
  rw [if_pos (zpow_pos (by norm_num) _)]

theorem ofSignMagnitude_false_eq {a : ℚ} {e m : ℤ} (ha : 0 < a) (he : -1074 ≤ e)
    (he2 : e ≤ 970) (hlo : (2 : ℚ) ^ (e + 52) ≤ a) (hhi : a < (2 : ℚ) ^ (e + 53))
    (h1 : (m : ℚ) - 1 / 2 < a / 2 ^ e) (h2 : a / 2 ^ e < m + 1 / 2) (hm : 0 < m)
    (hm2 : (m : ℚ) ≤ 2 ^ (53 : ℤ)) :
    JSNumber.ofSignMagnitude false a = .fin ((m : ℚ) * 2 ^ e) := by
  have hpos : (0 : ℚ) < (m : ℚ) * 2 ^ e := by
    have : (0 : ℚ) < (2 : ℚ) ^ e := zpow_pos (by norm_num) e
    have hm3 : (0 : ℚ) < m := by exact_mod_cast hm
    exact mul_pos hm3 this
  unfold JSNumber.ofSignMagnitude
  rw [roundMagnitude_eq ha he he2 hlo hhi h1 h2 hm2]
  simp only [if_neg (ne_of_gt hpos)]
  rfl

theorem toDouble_of_nonneg {q : ℚ} (hq : 0 ≤ q) :
    toDouble q = JSNumber.ofSignMagnitude false q := by
  unfold toDouble
  rw [abs_of_nonneg hq]
  have hneg : decide (q < 0) = false := by
    simp only [decide_eq_false_iff_not, not_lt]
    exact hq
  rw [hneg]

theorem toDouble_of_neg {q : ℚ} (hq : q < 0) :
    toDouble q = JSNumber.ofSignMagnitude true (-q) := by
  unfold toDouble
  rw [abs_of_neg hq]
  have hneg : decide (q < 0) = true := by
    simp only [decide_eq_true_eq]
    exact hq
  rw [hneg]

theorem toDouble_eq {q : ℚ} {e m : ℤ} (hq : 0 < q) (he : -1074 ≤ e) (he2 : e ≤ 970)
    (hlo : (2 : ℚ) ^ (e + 52) ≤ q) (hhi : q < (2 : ℚ) ^ (e + 53))
    (h1 : (m : ℚ) - 1 / 2 < q / 2 ^ e) (h2 : q / 2 ^ e < m + 1 / 2) (hm : 0 < m)
    (hm2 : (m : ℚ) ≤ 2 ^ (53 : ℤ)) : toDouble q = .fin ((m : ℚ) * 2 ^ e) := by
  rw [toDouble_of_nonneg (le_of_lt hq)]
  exact ofSignMagnitude_false_eq hq he he2 hlo hhi h1 h2 hm hm2

theorem toDouble_four_fifths : toDouble (4 / 5) = pointEight := by
  have h := toDouble_eq (q := 4 / 5) (e := -53) (m := 7205759403792794) (by norm_num)
    (by norm_num) (by norm_num) (by norm_num) (by norm_num) (by norm_num) (by norm_num)
    (by norm_num) (by norm_num)
  rw [h]
  unfold pointEight
  congr 1
  norm_num

/-! ## Discount codes -/

theorem pointEight_truthy : pointEight.truthy = true := by
  simp [pointEight, JSNumber.truthy]

theorem lookup_discountCodes (key : String) :
    discountCodes.lookup key = if key = "DUPA" then some pointEight else none := by
  by_cases hk : key = "DUPA"
  · simp [discountCodes, List.lookup, hk]
  · have hb : (key == "DUPA") = false := by simpa using hk
    simp [discountCodes, List.lookup, hk, hb]

theorem applyDiscount_of_unknown (h : Host) (code : String)
    (hr : h.toUpperCase code ∉ discountCodes.map Prod.fst) :
    applyDiscount h (discountQuery (some code)) = .ok (fun product => product) := by
  have hk : h.toUpperCase code ≠ "DUPA" := by
    intro heq
    apply hr
    simp [discountCodes, heq]
  simp [applyDiscount, discountQuery, lookup_discountCodes, hk]

/-- The transform of a code whose upper-case form is `DUPA`: `price` is rewritten with
the ratio 0.8. -/
theorem applyDiscount_of_ratio (h : Host) (code : String) (hr : h.toUpperCase code = "DUPA") :
    applyDiscount h (discountQuery (some code)) = .ok (fun product =>
      JObj.set product "price" (discountedPrice pointEight (JObj.get product "price"))) := by
  simp [applyDiscount, discountQuery, lookup_discountCodes, hr, pointEight_truthy]

/-- Claim C16: a discount code that is absent, or whose upper-case form is not a key of
`discountCodes`, makes `applyDiscount` the identity: the product comes back with its
price and every other field unchanged.  The lookup goes through `toUpperCase`: two
codes with the same upper-case form give the same transform, and every code whose
upper-case form is `DUPA` makes `applyDiscount` rewrite the price with the ratio 0.8. -/
theorem applyDiscount_lookup (h : Host) (product : Product) :
    (∃ discount, applyDiscount h (discountQuery none) = .ok discount ∧
      discount product = product) ∧
    (∀ code, h.toUpperCase code ∉ discountCodes.map Prod.fst →
      ∃ discount, applyDiscount h (discountQuery (some code)) = .ok discount ∧
        discount product = product) ∧
    (∀ c1 c2, h.toUpperCase c1 = h.toUpperCase c2 →
      applyDiscount h (discountQuery (some c1)) = applyDiscount h (discountQuery (some c2))) ∧
    (∀ code, h.toUpperCase code = "DUPA" →
      discountCodes.lookup (h.toUpperCase code) = some pointEight ∧
      ∃ discount, applyDiscount h (discountQuery (some code)) = .ok discount ∧
        discount product =
          JObj.set product "price" (discountedPrice pointEight (JObj.get product "price")) ∧
        JObj.get (discount product) "price" =
          some (.num (parseFloatToFixed2
            ((toNumber (JObj.get product "price")).mul pointEight)))) ∧
    pointEight = toDouble (4 / 5) := by
  refine ⟨⟨fun product => product, rfl, rfl⟩, ?_, ?_, ?_, ?_⟩
  · intro code hcode
    exact ⟨fun product => product, applyDiscount_of_unknown h code hcode, rfl⟩
  · intro c1 c2 hc
    show (match List.lookup (h.toUpperCase c1) discountCodes with
      | some discountedRatio =>
        if discountedRatio.truthy = true then
          Except.ok fun product =>
            JObj.set product "price" (discountedPrice discountedRatio (JObj.get product "price"))
        else Except.ok fun product => product
      | none => Except.ok fun product => product) = _
    rw [hc]
    rfl
  · intro code hcode
    refine ⟨by rw [lookup_discountCodes, if_pos hcode], _, applyDiscount_of_ratio h code hcode,
      rfl, ?_⟩
    rw [JObj.get_after_set]
    simp [discountedPrice]
  · exact toDouble_four_fifths.symm

/-- The code `abc` leaves the apple as it is; `dupa`, `Dupa` and `DUPA` all make
`applyDiscount` rewrite the price with the ratio 0.8. -/
theorem applyDiscount_lookup_witness :
    (exampleHost.toUpperCase "abc" ∉ discountCodes.map Prod.fst ∧
      exampleHost.toUpperCase "dupa" = "DUPA" ∧ exampleHost.toUpperCase "Dupa" = "DUPA" ∧
      exampleHost.toUpperCase "DUPA" = "DUPA") ∧
    (∃ discount, applyDiscount exampleHost (discountQuery (some "abc")) = .ok discount ∧
      discount apple = apple) ∧
    (∃ discount, applyDiscount exampleHost (discountQuery (some "dupa")) = .ok discount ∧
      discount apple =
        JObj.set apple "price" (discountedPrice pointEight (JObj.get apple "price")) ∧
      JObj.get (discount apple) "price" =
        some (.num (parseFloatToFixed2 ((toNumber (JObj.get apple "price")).mul pointEight)))) ∧
    applyDiscount exampleHost (discountQuery (some "dupa")) =
      applyDiscount exampleHost (discountQuery (some "DUPA")) ∧
    applyDiscount exampleHost (discountQuery (some "Dupa")) =
      applyDiscount exampleHost (discountQuery (some "DUPA")) :=
  ⟨⟨by decide, by decide, by decide, by decide⟩,
    (applyDiscount_lookup exampleHost apple).2.1 "abc" (by decide),
    ((applyDiscount_lookup exampleHost apple).2.2.2.1 "dupa" (by decide)).2,
    (applyDiscount_lookup exampleHost apple).2.2.1 "dupa" "DUPA" (by decide),
    (applyDiscount_lookup exampleHost apple).2.2.1 "Dupa" "DUPA" (by decide)⟩

/-! ## The discounted price -/

/-- The double that the literal `42.20` denotes. -/
theorem toDouble_apple_price :
    toDouble (211 / 5) = .fin (2969561004297421 / 70368744177664) := by
  have h := toDouble_eq (q := 211 / 5) (e := -47) (m := 5939122008594842) (by norm_num)
    (by norm_num) (by norm_num) (by norm_num) (by norm_num) (by norm_num) (by norm_num)
    (by norm_num) (by norm_num)
  rw [h]
  congr 1
  norm_num

/-- The double that the literal `33.76` denotes. -/
theorem toDouble_discounted_apple_price :
    toDouble (844 / 25) = .fin (4751297606875873 / 140737488355328) := by
  have h := toDouble_eq (q := 844 / 25) (e := -47) (m := 4751297606875873) (by norm_num)
    (by norm_num) (by norm_num) (by norm_num) (by norm_num) (by norm_num) (by norm_num)
    (by norm_num) (by norm_num)
  rw [h]
  congr 1
  norm_num

/-- The product `42.20 * 0.8` on doubles: `33.760000000000005`, one unit in the last
place above the double of `33.76`. -/
theorem mul_apple_price :
    (toDouble (211 / 5)).mul pointEight = .fin (2375648803437937 / 70368744177664) := by
  rw [toDouble_apple_price]
  have h := ofSignMagnitude_false_eq
    (a := |(2969561004297421 / 70368744177664 : ℚ)| * |(3602879701896397 / 4503599627370496 : ℚ)|)
    (e := -47) (m := 4751297606875874) (by norm_num [abs_of_pos])
    (by norm_num) (by norm_num) (by norm_num [abs_of_pos]) (by norm_num [abs_of_pos])
    (by norm_num [abs_of_pos]) (by norm_num [abs_of_pos]) (by norm_num) (by norm_num)
  have hs1 : decide ((2969561004297421 / 70368744177664 : ℚ) < 0) = false := by
    simp only [decide_eq_false_iff_not, not_lt]; norm_num
  have hs2 : decide ((3602879701896397 / 4503599627370496 : ℚ) < 0) = false := by
    simp only [decide_eq_false_iff_not, not_lt]; norm_num
  simp only [JSNumber.mul, pointEight, JSNumber.finiteAbs, JSNumber.isNegative, hs1, hs2,
    Bool.xor_false]
  rw [h]
  congr 1
  norm_num

/-- The hundredth that `toFixed(2)` prints is a nearest one. -/
theorem floor_half_nearest (a : ℚ) (k : ℤ) :
    |((⌊a * 100 + 1 / 2⌋ : ℤ) : ℚ) / 100 - a| ≤ |(k : ℚ) / 100 - a| := by
  have h1 : ((⌊a * 100 + 1 / 2⌋ : ℤ) : ℚ) ≤ a * 100 + 1 / 2 := Int.floor_le _
  have h2 : a * 100 + 1 / 2 < (⌊a * 100 + 1 / 2⌋ : ℤ) + 1 := Int.lt_floor_add_one _
  have hn : |((⌊a * 100 + 1 / 2⌋ : ℤ) : ℚ) / 100 - a| ≤ 1 / 200 :=
    abs_le.mpr ⟨by linarith, by linarith⟩
  by_cases hk : k = ⌊a * 100 + 1 / 2⌋
  · rw [hk]
  · rcases lt_or_gt_of_ne hk with hlt | hgt
    · have h3 : k + 1 ≤ ⌊a * 100 + 1 / 2⌋ := hlt
      have h4 : (k : ℚ) + 1 ≤ (⌊a * 100 + 1 / 2⌋ : ℤ) := by exact_mod_cast h3
      have : 1 / 200 ≤ |(k : ℚ) / 100 - a| := by
        rw [abs_sub_comm]
        exact le_trans (by linarith) (le_abs_self _)
      linarith
    · have h3 : ⌊a * 100 + 1 / 2⌋ + 1 ≤ k := hgt
      have h4 : ((⌊a * 100 + 1 / 2⌋ : ℤ) : ℚ) + 1 ≤ (k : ℚ) := by exact_mod_cast h3
      have : 1 / 200 ≤ |(k : ℚ) / 100 - a| := le_trans (by linarith) (le_abs_self _)
      linarith

/-- On a tie, the hundredth that `toFixed(2)` prints is the larger one. -/
theorem floor_half_tie (a : ℚ) (k : ℤ)
    (h : |(k : ℚ) / 100 - a| = |((⌊a * 100 + 1 / 2⌋ : ℤ) : ℚ) / 100 - a|) :
    k ≤ ⌊a * 100 + 1 / 2⌋ := by
  have h1 : ((⌊a * 100 + 1 / 2⌋ : ℤ) : ℚ) ≤ a * 100 + 1 / 2 := Int.floor_le _
  have h2 : a * 100 + 1 / 2 < (⌊a * 100 + 1 / 2⌋ : ℤ) + 1 := Int.lt_floor_add_one _
  by_contra hk
  have h3 : ⌊a * 100 + 1 / 2⌋ + 1 ≤ k := not_le.mp hk
  have h4 : ((⌊a * 100 + 1 / 2⌋ : ℤ) : ℚ) + 1 ≤ (k : ℚ) := by exact_mod_cast h3
  have hn : |((⌊a * 100 + 1 / 2⌋ : ℤ) : ℚ) / 100 - a| ≤ 1 / 200 :=
    abs_le.mpr ⟨by linarith, by linarith⟩
  have hk2 : 1 / 200 < |(k : ℚ) / 100 - a| := lt_of_lt_of_le (by linarith) (le_abs_self _)
  linarith

/-- On a tie, the other hundredth is not further from zero. -/
theorem floor_half_away (a : ℚ) (ha : 0 ≤ a) (k : ℤ)
    (h : |(k : ℚ) / 100 - a| = |((⌊a * 100 + 1 / 2⌋ : ℤ) : ℚ) / 100 - a|) :
    |k| ≤ ⌊a * 100 + 1 / 2⌋ := by
  have h1 : ((⌊a * 100 + 1 / 2⌋ : ℤ) : ℚ) ≤ a * 100 + 1 / 2 := Int.floor_le _
  have h2 : a * 100 + 1 / 2 < (⌊a * 100 + 1 / 2⌋ : ℤ) + 1 := Int.lt_floor_add_one _
  have hn0 : 0 ≤ ⌊a * 100 + 1 / 2⌋ := Int.floor_nonneg.mpr (by linarith)
  have hn0q : (0 : ℚ) ≤ ((⌊a * 100 + 1 / 2⌋ : ℤ) : ℚ) := by exact_mod_cast hn0
  have hup := floor_half_tie a k h
  have hlow : -⌊a * 100 + 1 / 2⌋ ≤ k := by
    by_contra hc
    have h3 : k + 1 ≤ -⌊a * 100 + 1 / 2⌋ := not_le.mp hc
    have h4 : (k : ℚ) + 1 ≤ -((⌊a * 100 + 1 / 2⌋ : ℤ) : ℚ) := by exact_mod_cast h3
    have hn : |((⌊a * 100 + 1 / 2⌋ : ℤ) : ℚ) / 100 - a| ≤ 1 / 200 :=
      abs_le.mpr ⟨by linarith, by linarith⟩
    have hk2 : 1 / 200 < |(k : ℚ) / 100 - a| := by
      rw [abs_sub_comm]
      exact lt_of_lt_of_le (by linarith) (le_abs_self _)
    rw [h] at hk2
    linarith
  exact abs_le.mpr ⟨hlow, hup⟩

theorem ofSignMagnitude_true_zero : JSNumber.ofSignMagnitude true 0 = .negZero := by
  unfold JSNumber.ofSignMagnitude
  rw [roundMagnitude_zero]
  rfl

/-- The hundredth printed for a magnitude, with the sign put back: nearest to the signed
number, and not nearer to zero than another nearest one. -/
theorem signed_hundredth (y a : ℚ) (ha : 0 ≤ a) (n : ℤ)
    (hn : (y = a ∧ n = ⌊a * 100 + 1 / 2⌋) ∨ (y = -a ∧ n = -⌊a * 100 + 1 / 2⌋)) :
    (∀ k : ℤ, |(n : ℚ) / 100 - y| ≤ |(k : ℚ) / 100 - y|) ∧
    (∀ k : ℤ, |(k : ℚ) / 100 - y| = |(n : ℚ) / 100 - y| → |k| ≤ |n|) := by
  have hn0 : 0 ≤ ⌊a * 100 + 1 / 2⌋ := Int.floor_nonneg.mpr (by linarith)
  rcases hn with ⟨hy, hn⟩ | ⟨hy, hn⟩
  · subst hy
    subst hn
    refine ⟨fun k => floor_half_nearest y k, fun k hk => ?_⟩
    rw [abs_of_nonneg hn0]
    exact floor_half_away y ha k hk
  · have e1 : (n : ℚ) / 100 - y = -(((⌊a * 100 + 1 / 2⌋ : ℤ) : ℚ) / 100 - a) := by
      rw [hy, hn]; push_cast; ring
    have e2 : ∀ k : ℤ, (k : ℚ) / 100 - y = -(((-k : ℤ) : ℚ) / 100 - a) := by
      intro k
      rw [hy]; push_cast; ring
    constructor
    · intro k
      rw [e1, e2 k, abs_neg, abs_neg]
      exact floor_half_nearest a (-k)
    · intro k hk
      rw [e1, e2 k, abs_neg, abs_neg] at hk
      have h := floor_half_away a ha (-k) hk
      rw [abs_neg] at h
      rw [hn, abs_neg, abs_of_nonneg hn0]
      exact h

/-- The expression `parseFloat(y.toFixed(2))` for a finite `y` below `10^21` in magnitude:
the double of a hundredth nearest to `y`, the one further from zero on a tie; a negative
`y` that rounds to zero gives `-0`. -/
theorem parseFloatToFixed2_nearest (y : ℚ) (hy : |y| < 10 ^ 21) :
    ∃ n : ℤ, (∀ k : ℤ, |(n : ℚ) / 100 - y| ≤ |(k : ℚ) / 100 - y|) ∧
      (∀ k : ℤ, |(k : ℚ) / 100 - y| = |(n : ℚ) / 100 - y| → |k| ≤ |n|) ∧
      parseFloatToFixed2 (.fin y) =
        if n = 0 ∧ y < 0 then .negZero else toDouble ((n : ℚ) / 100) := by
  have hdef : parseFloatToFixed2 (.fin y) =
      JSNumber.ofSignMagnitude (decide (y < 0)) ((⌊|y| * 100 + 1 / 2⌋ : ℤ) / 100) := by
    simp only [parseFloatToFixed2, if_neg (not_le.mpr hy)]
  have ha : 0 ≤ |y| := abs_nonneg y
  have hn0 : 0 ≤ ⌊|y| * 100 + 1 / 2⌋ := Int.floor_nonneg.mpr (by linarith)
  have hn0q : (0 : ℚ) ≤ ((⌊|y| * 100 + 1 / 2⌋ : ℤ) : ℚ) := by exact_mod_cast hn0
  by_cases hneg : y < 0
  · have habs : y = -|y| := by rw [abs_of_neg hneg, neg_neg]
    obtain ⟨hn1, hn2⟩ := signed_hundredth y |y| ha (-⌊|y| * 100 + 1 / 2⌋)
      (Or.inr ⟨habs, rfl⟩)
    refine ⟨-⌊|y| * 100 + 1 / 2⌋, hn1, hn2, ?_⟩
    rw [hdef]
    have hd : decide (y < 0) = true := by simp only [decide_eq_true_eq]; exact hneg
    rw [hd]
    by_cases hz : ⌊|y| * 100 + 1 / 2⌋ = 0
    · rw [if_pos ⟨by omega, hneg⟩, hz]
      simp only [Int.cast_zero, zero_div]
      exact ofSignMagnitude_true_zero
    · rw [if_neg (fun hc => hz (by omega))]
      have hpos : (0 : ℚ) < ((⌊|y| * 100 + 1 / 2⌋ : ℤ) : ℚ) := by
        have : 0 < ⌊|y| * 100 + 1 / 2⌋ := by omega
        exact_mod_cast this
      have hlt : ((-⌊|y| * 100 + 1 / 2⌋ : ℤ) : ℚ) / 100 < 0 := by
        push_cast; linarith
      rw [toDouble_of_neg hlt]
      congr 1
      push_cast
      ring
  · have hge : 0 ≤ y := not_lt.mp hneg
    have habs : y = |y| := (abs_of_nonneg hge).symm
    obtain ⟨hn1, hn2⟩ := signed_hundredth y |y| ha ⌊|y| * 100 + 1 / 2⌋
      (Or.inl ⟨habs, rfl⟩)
    refine ⟨⌊|y| * 100 + 1 / 2⌋, hn1, hn2, ?_⟩
    rw [hdef]
    have hd : decide (y < 0) = false := by
      simp only [decide_eq_false_iff_not]; exact hneg
    rw [hd, if_neg (fun hc => hneg hc.2)]
    have hq : (0 : ℚ) ≤ ((⌊|y| * 100 + 1 / 2⌋ : ℤ) : ℚ) / 100 := by linarith
    rw [toDouble_of_nonneg hq]

/-- The expression `parseFloat((42.20 * 0.8).toFixed(2))`: the double of `33.76`. -/
theorem parseFloatToFixed2_apple :
    parseFloatToFixed2 (.fin (2375648803437937 / 70368744177664)) = toDouble (844 / 25) := by
  have hfl : ⌊|(2375648803437937 / 70368744177664 : ℚ)| * 100 + 1 / 2⌋ = 3376 := by
    rw [Int.floor_eq_iff]
    constructor <;> norm_num [abs_of_pos]
  have hd : decide ((2375648803437937 / 70368744177664 : ℚ) < 0) = false := by
    simp only [decide_eq_false_iff_not, not_lt]; norm_num
  simp only [parseFloatToFixed2]
  rw [if_neg (by norm_num [abs_of_pos]), hfl, hd, toDouble_of_nonneg (by norm_num)]
  congr 1
  norm_num

/-- The rounding is that of the product on doubles: for the price 1.34375 the product
with the double of 0.8 is the double just below 1.075, and the new price is 1.07. -/
theorem discountedPrice_below_tie :
    (JSNumber.fin (43 / 32)).mul pointEight = .fin (4841369599423283 / 4503599627370496) ∧
    (4841369599423283 / 4503599627370496 : ℚ) < 43 / 40 ∧
    discountedPrice pointEight (some (.num (.fin (43 / 32)))) = .num (toDouble (107 / 100)) := by
  have h := ofSignMagnitude_false_eq
    (a := |(43 / 32 : ℚ)| * |(3602879701896397 / 4503599627370496 : ℚ)|)
    (e := -52) (m := 4841369599423283) (by norm_num [abs_of_pos])
    (by norm_num) (by norm_num) (by norm_num [abs_of_pos]) (by norm_num [abs_of_pos])
    (by norm_num [abs_of_pos]) (by norm_num [abs_of_pos]) (by norm_num) (by norm_num)
  have hs1 : decide ((43 / 32 : ℚ) < 0) = false := by
    simp only [decide_eq_false_iff_not, not_lt]; norm_num
  have hs2 : decide ((3602879701896397 / 4503599627370496 : ℚ) < 0) = false := by
    simp only [decide_eq_false_iff_not, not_lt]; norm_num
  have hmul : (JSNumber.fin (43 / 32)).mul pointEight =
      .fin (4841369599423283 / 4503599627370496) := by
    simp only [JSNumber.mul, pointEight, JSNumber.finiteAbs, JSNumber.isNegative, hs1, hs2,
      Bool.xor_false]
    rw [h]
    congr 1
    norm_num
  have hfl : ⌊|(4841369599423283 / 4503599627370496 : ℚ)| * 100 + 1 / 2⌋ = 107 := by
    rw [Int.floor_eq_iff]
    constructor <;> norm_num [abs_of_pos]
  have hd : decide ((4841369599423283 / 4503599627370496 : ℚ) < 0) = false := by
    simp only [decide_eq_false_iff_not, not_lt]; norm_num
  refine ⟨hmul, by norm_num, ?_⟩
  simp only [discountedPrice, toNumber]
  rw [hmul]
  simp only [parseFloatToFixed2]
  rw [if_neg (by norm_num [abs_of_pos]), hfl, hd, toDouble_of_nonneg (by norm_num)]
  congr 2

/-- Claim C17: a code whose upper-case form is `DUPA` makes `applyDiscount` return a view
of the product in which every field other than `price` is unchanged and `price` is
`parseFloat((product.price * 0.8).toFixed(2))`.  Whenever the product of the price and
the ratio, a double `y`, is finite and below `10^21` in magnitude, the new price is the
double of `n / 100` for a hundredth `n / 100` nearest to `y`, the one further from zero
on a tie (`-0` when a negative `y` rounds to zero): `y` rounded to two decimal places.
In particular the price 42.20 gives the product 33.760000000000005 and the new price
33.76. -/
theorem applyDiscount_price (h : Host) (code : String) (product : Product)
    (hr : h.toUpperCase code = "DUPA") :
    ∃ discount, applyDiscount h (discountQuery (some code)) = .ok discount ∧
      (∀ key, key ≠ "price" → JObj.get (discount product) key = JObj.get product key) ∧
      JObj.get (discount product) "price" =
        some (.num (parseFloatToFixed2 ((toNumber (JObj.get product "price")).mul pointEight))) ∧
      (∀ y : ℚ, (toNumber (JObj.get product "price")).mul pointEight = .fin y →
        |y| < 10 ^ 21 →
        ∃ n : ℤ, (∀ k : ℤ, |(n : ℚ) / 100 - y| ≤ |(k : ℚ) / 100 - y|) ∧
          (∀ k : ℤ, |(k : ℚ) / 100 - y| = |(n : ℚ) / 100 - y| → |k| ≤ |n|) ∧
          JObj.get (discount product) "price" =
            some (.num (if n = 0 ∧ y < 0 then .negZero else toDouble ((n : ℚ) / 100)))) ∧
      (JObj.get product "price" = some (.num (toDouble (211 / 5))) →
        (toNumber (JObj.get product "price")).mul pointEight =
          .fin (2375648803437937 / 70368744177664) ∧
        JObj.get (discount product) "price" = some (.num (toDouble (844 / 25))) ∧
        toDouble (844 / 25) = .fin (4751297606875873 / 140737488355328)) := by
  have hprice : JObj.get (JObj.set product "price"
      (discountedPrice pointEight (JObj.get product "price"))) "price" =
      some (.num (parseFloatToFixed2
        ((toNumber (JObj.get product "price")).mul pointEight))) := by
    rw [JObj.get_after_set]
    simp [discountedPrice]
  refine ⟨_, applyDiscount_of_ratio h code hr, ?_, hprice, ?_, ?_⟩
  · intro key hkey
    show JObj.get (JObj.set product "price" _) key = _
    rw [JObj.get_after_set, if_neg hkey]
  · intro y hy hlt
    obtain ⟨n, hn1, hn2, hn3⟩ := parseFloatToFixed2_nearest y hlt
    refine ⟨n, hn1, hn2, ?_⟩
    show JObj.get (JObj.set product "price" _) "price" = _
    rw [hprice, hy, hn3]
  · intro hp
    have hm : (toNumber (JObj.get product "price")).mul pointEight =
        .fin (2375648803437937 / 70368744177664) := by
      rw [hp]
      exact mul_apple_price
    refine ⟨hm, ?_, toDouble_discounted_apple_price⟩
    show JObj.get (JObj.set product "price" _) "price" = _
    rw [hprice, hm, parseFloatToFixed2_apple]

/-- The apple, of price 42.20, under the code `dupa`: the product of the doubles is
33.760000000000005, the hundredth nearest to it is 33.76, and the view has the price
33.76 and the other fields of the apple. -/
theorem applyDiscount_price_witness :
    exampleHost.toUpperCase "dupa" = "DUPA" ∧
    JObj.get apple "price" = some (.num (toDouble (211 / 5))) ∧
    ∃ discount, applyDiscount exampleHost (discountQuery (some "dupa")) = .ok discount ∧
      (toNumber (JObj.get apple "price")).mul pointEight =
        .fin (2375648803437937 / 70368744177664) ∧
      JObj.get (discount apple) "price" = some (.num (toDouble (844 / 25))) ∧
      toDouble (844 / 25) = .fin (4751297606875873 / 140737488355328) ∧
      JObj.get (discount apple) "id" = some (.str "_jappko") ∧
      JObj.get (discount apple) "category" = some (.str "FOOD") ∧
      JObj.get (discount apple) "name" = some (.str "Apple") ∧
      ∃ n : ℤ,
        (∀ k : ℤ, |(n : ℚ) / 100 - 2375648803437937 / 70368744177664| ≤
          |(k : ℚ) / 100 - 2375648803437937 / 70368744177664|) ∧
        JObj.get (discount apple) "price" =
          some (.num (if n = 0 ∧ (2375648803437937 / 70368744177664 : ℚ) < 0 then .negZero
            else toDouble ((n : ℚ) / 100))) := by
  have hp : JObj.get apple "price" = some (.num (toDouble (211 / 5))) := by
    simp [apple, JObj.get]
  obtain ⟨discount, hd, hkeys, -, hround, happle⟩ :=
    applyDiscount_price exampleHost "dupa" apple (by decide)
  obtain ⟨n, hn1, -, hn3⟩ := hround _ (happle hp).1 (by norm_num [abs_of_pos])
  refine ⟨by decide, hp, discount, hd, (happle hp).1, (happle hp).2.1, (happle hp).2.2, ?_, ?_,
    ?_, n, hn1, hn3⟩
  · rw [hkeys "id" (by decide)]
    simp [apple, JObj.get]
  · rw [hkeys "category" (by decide)]
    simp [apple, JObj.get]
  · rw [hkeys "name" (by decide)]
    simp [apple, JObj.get]

/-! ## Reads and the store -/

theorem Memory.read_append (m extra : Memory) (ref : Nat) (h : ref < m.length) :
    Memory.read (m ++ extra) ref = Memory.read m ref := by
  unfold Memory.read
  simp [List.getD_eq_getElem?_getD, List.getElem?_append_left h]

theorem RefStore.deref_append (m extra : Memory) (s : RefStore)
    (hwf : ∀ e ∈ s, e.2 < m.length) : RefStore.deref (m ++ extra) s = RefStore.deref m s := by
  unfold RefStore.deref
  apply List.map_congr_left
  intro e he
  rw [Memory.read_append m extra e.2 (hwf e he)]

theorem RefStore.get_deref (m : Memory) (s : RefStore) (id : String) :
    Store.get (RefStore.deref m s) id = (s.lookup id).map (Memory.read m) := by
  induction s with
  | nil => rfl
  | cons e rest ih =>
    obtain ⟨k, ref⟩ := e
    by_cases hk : k = id
    · have hb : (id == k) = true := by simp [hk]
      simp [RefStore.deref, Store.get, List.lookup, hk]
    · have hb : (id == k) = false := by
        simp only [beq_eq_false_iff_ne]
        exact fun e => hk e.symm
      have ih2 : Store.get (RefStore.deref m rest) id =
          (rest.lookup id).map (Memory.read m) := ih
      simp only [RefStore.deref, List.map_cons, Store.get, if_neg hk, List.lookup, hb]
      exact ih2

theorem RefStore.lookup_mem (s : RefStore) (id : String) (ref : Nat)
    (h : s.lookup id = some ref) : (id, ref) ∈ s := by
  induction s with
  | nil => simp [List.lookup] at h
  | cons e rest ih =>
    obtain ⟨k, r⟩ := e
    by_cases hk : id = k
    · have hb : (id == k) = true := by simp [hk]
      simp only [List.lookup, hb] at h
      rw [hk, Option.some.inj h]
      exact List.mem_cons_self _ _
    · have hb : (id == k) = false := by simpa using hk
      simp only [List.lookup, hb] at h
      exact List.mem_cons_of_mem _ (ih h)

/-- The two forms of `applyDiscount` fail together, or give callbacks of which the
one on references only allocates. -/
theorem applyDiscountRef_allocates (h : Host) (query : Query) :
    (∃ e, applyDiscount h query = .error e ∧ applyDiscountRef h query = .error e) ∨
    (∃ byValue byRef, applyDiscount h query = .ok byValue ∧
      applyDiscountRef h query = .ok byRef ∧ Allocates byRef byValue) := by
  have hid : Allocates (fun m product => (m, product)) (fun product => product) := by
    intro m ref
    exact ⟨[], by simp, fun hlt => ⟨hlt, rfl⟩⟩
  cases hq : query.discount with
  | none =>
    exact Or.inr ⟨fun product => product, fun m product => (m, product),
      by simp [applyDiscount, hq], by simp [applyDiscountRef, hq], hid⟩
  | some v =>
    cases v with
    | arr xs =>
      exact Or.inl ⟨.typeError, by simp [applyDiscount, hq], by simp [applyDiscountRef, hq]⟩
    | str code =>
      cases hl : discountCodes.lookup (h.toUpperCase code) with
      | none =>
        exact Or.inr ⟨fun product => product, fun m product => (m, product),
          by simp [applyDiscount, hq, hl], by simp [applyDiscountRef, hq, hl], hid⟩
      | some ratio =>
        by_cases ht : ratio.truthy = true
        · refine Or.inr ⟨fun product => JObj.set product "price"
              (discountedPrice ratio (JObj.get product "price")),
            fun m product => (m ++ [JObj.set (Memory.read m product) "price"
              (discountedPrice ratio (JObj.get (Memory.read m product) "price"))], m.length),
            by simp [applyDiscount, hq, hl, ht], by simp [applyDiscountRef, hq, hl, ht], ?_⟩
          intro m ref
          refine ⟨_, rfl, fun _ => ⟨by simp, ?_⟩⟩
          simp [Memory.read, List.getD_eq_getElem?_getD]
        · exact Or.inr ⟨fun product => product, fun m product => (m, product),
            by simp [applyDiscount, hq, hl, ht], by simp [applyDiscountRef, hq, hl, ht], hid⟩

theorem mapRef_allocates (byRef : Memory → Nat → Memory × Nat) (byValue : Product → Product)
    (ha : Allocates byRef byValue) (refs : List Nat) :
    ∀ m : Memory, (∀ ref ∈ refs, ref < m.length) →
      ∃ extra, (mapRef byRef m refs).1 = m ++ extra ∧
        (∀ ref ∈ (mapRef byRef m refs).2, ref < (mapRef byRef m refs).1.length) ∧
        (mapRef byRef m refs).2.map (Memory.read (mapRef byRef m refs).1) =
          refs.map (fun ref => byValue (Memory.read m ref)) := by
  induction refs with
  | nil =>
    intro m _
    exact ⟨[], by simp [mapRef], by simp [mapRef], by simp [mapRef]⟩
  | cons ref rest ih =>
    intro m hm
    obtain ⟨e1, h1, h1b⟩ := ha m ref
    obtain ⟨hlt, hread⟩ := h1b (hm ref (List.mem_cons_self _ _))
    have hrest : ∀ r ∈ rest, r < (byRef m ref).1.length := by
      intro r hr
      rw [h1, List.length_append]
      have := hm r (List.mem_cons_of_mem _ hr)
      omega
    obtain ⟨e2, h2, h2b, h2c⟩ := ih (byRef m ref).1 hrest
    refine ⟨e1 ++ e2, ?_, ?_, ?_⟩
    · show (mapRef byRef (byRef m ref).1 rest).1 = m ++ (e1 ++ e2)
      rw [h2, h1, List.append_assoc]
    · intro r hr
      have hr2 : r = (byRef m ref).2 ∨ r ∈ (mapRef byRef (byRef m ref).1 rest).2 :=
        List.mem_cons.mp hr
      show r < (mapRef byRef (byRef m ref).1 rest).1.length
      rcases hr2 with hr2 | hr2
      · rw [hr2, h2, List.length_append]
        omega
      · exact h2b r hr2
    · show Memory.read (mapRef byRef (byRef m ref).1 rest).1 (byRef m ref).2 ::
          (mapRef byRef (byRef m ref).1 rest).2.map
            (Memory.read (mapRef byRef (byRef m ref).1 rest).1) =
        byValue (Memory.read m ref) :: rest.map (fun r => byValue (Memory.read m r))
      rw [h2c]
      congr 1
      · rw [h2, Memory.read_append _ _ _ hlt, hread]
      · apply List.map_congr_left
        intro r hr
        rw [h1, Memory.read_append m e1 r (hm r (List.mem_cons_of_mem _ hr))]

theorem slice_map {α β : Type} (f : α → β) (arr : List α) (start end_ : JSInt) :
    slice (arr.map f) start end_ = (slice arr start end_).map f := by
  simp [slice, List.map_take, List.map_drop]

theorem paginate_map {α β : Type} (f : α → β) (arr : List α) (query : Query) :
    paginate (arr.map f) query = Paged.map f (paginate arr query) := by
  unfold paginate
  simp only [List.length_map]
  split
  · simp [Paged.map, fallback]
  · simp [Paged.map, slice_map]

theorem getProductRef_frame (h : Host) (m : Memory) (products : RefStore) (id : String)
    (query : Query) (hwf : ∀ e ∈ products, e.2 < m.length) :
    (getProductRef h m products id query).2.1 = products ∧
    (∃ extra, (getProductRef h m products id query).1 = m ++ extra) ∧
    sent (Memory.read (getProductRef h m products id query).1)
        (getProductRef h m products id query).2.2 =
      getProduct h (RefStore.deref m products) id query := by
  have hget := RefStore.get_deref m products id
  cases hl : products.lookup id with
  | none =>
    rw [hl] at hget
    have hR : getProductRef h m products id query = (m, products, .ok (.sendStatus 404)) := by
      simp [getProductRef, hl]
    have hP : getProduct h (RefStore.deref m products) id query = .ok (.sendStatus 404) := by
      simp [getProduct, hget]
    rw [hR, hP]
    exact ⟨rfl, ⟨[], by simp⟩, rfl⟩
  | some ref =>
    rw [hl] at hget
    have hlt : ref < m.length := hwf (id, ref) (RefStore.lookup_mem products id ref hl)
    rcases applyDiscountRef_allocates h query with ⟨e, he1, he2⟩ | ⟨byValue, byRef, hv, hr, ha⟩
    · have hR : getProductRef h m products id query = (m, products, .error e) := by
        simp [getProductRef, hl, he2]
      have hP : getProduct h (RefStore.deref m products) id query = .error e := by
        simp [getProduct, hget, he1]
      rw [hR, hP]
      exact ⟨rfl, ⟨[], by simp⟩, rfl⟩
    · have hR : getProductRef h m products id query =
          ((byRef m ref).1, products, .ok (.json 200 (byRef m ref).2)) := by
        simp [getProductRef, hl, hr]
      have hP : getProduct h (RefStore.deref m products) id query =
          .ok (.json 200 (byValue (Memory.read m ref))) := by
        simp [getProduct, hget, hv]
      obtain ⟨extra, hext, hread⟩ := ha m ref
      rw [hR, hP]
      refine ⟨rfl, ⟨extra, hext⟩, ?_⟩
      show Except.ok (Response.json 200 (Memory.read (byRef m ref).1 (byRef m ref).2)) = _
      rw [(hread hlt).2]

theorem getProductsRef_frame (h : Host) (m : Memory) (products : RefStore) (query : Query)
    (hwf : ∀ e ∈ products, e.2 < m.length) :
    (getProductsRef h m products query).2.1 = products ∧
    (∃ extra, (getProductsRef h m products query).1 = m ++ extra) ∧
    sent (Paged.map (Memory.read (getProductsRef h m products query).1))
        (getProductsRef h m products query).2.2 =
      getProducts h (RefStore.deref m products) query := by
  cases hk : filterByCategory h query with
  | error e =>
    have hR : getProductsRef h m products query = (m, products, .error e) := by
      simp [getProductsRef, hk]
    have hP : getProducts h (RefStore.deref m products) query = .error e := by
      simp [getProducts, requestedProducts, hk]
    rw [hR, hP]
    exact ⟨rfl, ⟨[], by simp⟩, rfl⟩
  | ok keep =>
    rcases applyDiscountRef_allocates h query with ⟨e, he1, he2⟩ | ⟨byValue, byRef, hv, hr, ha⟩
    · have hR : getProductsRef h m products query = (m, products, .error e) := by
        simp [getProductsRef, hk, he2]
      have hP : getProducts h (RefStore.deref m products) query = .error e := by
        simp [getProducts, requestedProducts, hk, he1]
      rw [hR, hP]
      exact ⟨rfl, ⟨[], by simp⟩, rfl⟩
    · have hrefs : ∀ ref ∈ (products.map Prod.snd).filter (fun ref => keep (Memory.read m ref)),
          ref < m.length := by
        intro ref href
        have h1 := List.mem_of_mem_filter href
        obtain ⟨e, he, heq⟩ := List.mem_map.mp h1
        rw [← heq]
        exact hwf e he
      obtain ⟨extra, hext, _, hreads⟩ := mapRef_allocates byRef byValue ha
        ((products.map Prod.snd).filter (fun ref => keep (Memory.read m ref))) m hrefs
      have hR : getProductsRef h m products query =
          ((mapRef byRef m ((products.map Prod.snd).filter
              (fun ref => keep (Memory.read m ref)))).1, products,
            .ok (.json 200 (paginate (mapRef byRef m ((products.map Prod.snd).filter
              (fun ref => keep (Memory.read m ref)))).2 query))) := by
        simp [getProductsRef, hk, hr]
      have hvalues : ((Store.values (RefStore.deref m products)).filter keep).map byValue =
          ((products.map Prod.snd).filter (fun ref => keep (Memory.read m ref))).map
            (fun ref => byValue (Memory.read m ref)) := by
        have e1 : Store.values (RefStore.deref m products) =
            (products.map Prod.snd).map (Memory.read m) := by
          simp [Store.values, RefStore.deref, List.map_map, Function.comp_def]
        rw [e1, List.filter_map, List.map_map]
        rfl
      have hP : getProducts h (RefStore.deref m products) query =
          .ok (.json 200 (paginate (((Store.values (RefStore.deref m products)).filter keep).map
            byValue) query)) := by
        simp [getProducts, requestedProducts, hk, hv]
      rw [hR, hP]
      refine ⟨rfl, ⟨extra, hext⟩, ?_⟩
      show Except.ok (Response.json 200 (Paged.map _ (paginate _ query))) = _
      rw [← paginate_map, hreads, hvalues]

/-- Claim C15: with the products held by reference, a single-item read and a collection
read leave the map `products` as it is and only add objects to the memory, so every
stored record, price included, and the iteration order are as before; what is sent is
what the handlers on values compute, the discounted products being new objects. -/
theorem reads_leave_store (h : Host) (m : Memory) (products : RefStore) (id : String)
    (query : Query) (hwf : ∀ e ∈ products, e.2 < m.length) :
    ((getProductRef h m products id query).2.1 = products ∧
      RefStore.deref (getProductRef h m products id query).1
        (getProductRef h m products id query).2.1 = RefStore.deref m products ∧
      (∀ ref, ref < m.length →
        Memory.read (getProductRef h m products id query).1 ref = Memory.read m ref) ∧
      sent (Memory.read (getProductRef h m products id query).1)
          (getProductRef h m products id query).2.2 =
        getProduct h (RefStore.deref m products) id query) ∧
    ((getProductsRef h m products query).2.1 = products ∧
      RefStore.deref (getProductsRef h m products query).1
        (getProductsRef h m products query).2.1 = RefStore.deref m products ∧
      (∀ ref, ref < m.length →
        Memory.read (getProductsRef h m products query).1 ref = Memory.read m ref) ∧
      sent (Paged.map (Memory.read (getProductsRef h m products query).1))
          (getProductsRef h m products query).2.2 =
        getProducts h (RefStore.deref m products) query) := by
  obtain ⟨a1, ⟨x1, a2⟩, a3⟩ := getProductRef_frame h m products id query hwf
  obtain ⟨b1, ⟨x2, b2⟩, b3⟩ := getProductsRef_frame h m products query hwf
  refine ⟨⟨a1, ?_, ?_, a3⟩, ⟨b1, ?_, ?_, b3⟩⟩
  · rw [a1, a2]
    exact RefStore.deref_append m x1 products hwf
  · intro ref href
    rw [a2]
    exact Memory.read_append m x1 ref href
  · rw [b1, b2]
    exact RefStore.deref_append m x2 products hwf
  · intro ref href
    rw [b2]
    exact Memory.read_append m x2 ref href

/-- Reading the apple with the code `dupa`: the map and the stored apple are as before,
and the discounted apple is a second object. -/
theorem reads_leave_store_witness :
    (∀ e ∈ [("_jappko", 0)], e.2 < [apple].length) ∧
    (getProductRef exampleHost [apple] [("_jappko", 0)] "_jappko"
      (discountQuery (some "dupa"))).2.1 = [("_jappko", 0)] ∧
    RefStore.deref (getProductRef exampleHost [apple] [("_jappko", 0)] "_jappko"
        (discountQuery (some "dupa"))).1
      (getProductRef exampleHost [apple] [("_jappko", 0)] "_jappko"
        (discountQuery (some "dupa"))).2.1 = RefStore.deref [apple] [("_jappko", 0)] ∧
    (getProductRef exampleHost [apple] [("_jappko", 0)] "_jappko"
      (discountQuery (some "dupa"))).1.length = 2 ∧
    (getProductsRef exampleHost [apple] [("_jappko", 0)]
      (discountQuery (some "dupa"))).2.1 = [("_jappko", 0)] ∧
    RefStore.deref (getProductsRef exampleHost [apple] [("_jappko", 0)]
        (discountQuery (some "dupa"))).1
      (getProductsRef exampleHost [apple] [("_jappko", 0)]
        (discountQuery (some "dupa"))).2.1 = RefStore.deref [apple] [("_jappko", 0)] :=
  have hwf : ∀ e ∈ [(("_jappko" : String), (0 : Nat))], e.2 < [apple].length := by
    intro e he
    rw [List.mem_singleton.mp he]
    decide
  ⟨hwf,
    (reads_leave_store exampleHost [apple] [("_jappko", 0)] "_jappko"
      (discountQuery (some "dupa")) hwf).1.1,
    (reads_leave_store exampleHost [apple] [("_jappko", 0)] "_jappko"
      (discountQuery (some "dupa")) hwf).1.2.1,
    by
      have hu : exampleHost.toUpperCase "dupa" = "DUPA" := by decide
      simp [getProductRef, List.lookup, applyDiscountRef, discountQuery, hu, discountCodes,
        pointEight_truthy],
    (reads_leave_store exampleHost [apple] [("_jappko", 0)] "_jappko"
      (discountQuery (some "dupa")) hwf).2.1,
    (reads_leave_store exampleHost [apple] [("_jappko", 0)] "_jappko"
      (discountQuery (some "dupa")) hwf).2.2.1⟩

end Flip
